import Mathlib

set_option linter.unreachableTactic false
set_option linter.unusedTactic false

/-!
Verification of the immutable-memtable flush coordinator (`db/memtablelist.cc`)
and of the merging-iterator construction fragment of this repository.

The C++ state is embedded functionally: a memtable pointer becomes a natural
number identifier resolved through a table map `Nat → MemTable`, `memlist_`
(a `std::list` with newest element at the head) becomes a `List Nat`,
`std::set<uint64_t>` becomes `Finset Nat`, and the external metadata-log apply
collaborator (`VersionSet::LogAndApply`) is modelled by a list of result
statuses consumed in call order.  Machine integers that the source declares as
`int` are modelled as `Int`; `uint64_t` file numbers, which are never
decremented or overflowed here, as `Nat`.
-/

namespace MemTableListModel

/-- Result status as used by the coordinator: `ok`, an IO error carrying a
message (`Status::IOError`), or an arbitrary other non-ok collaborator
status. -/
inductive Status where
  | ok : Status
  | ioError : String → Status
  | other : Nat → Status
deriving DecidableEq

/-- The message of the status synthesized at `memtablelist.cc` line 160. -/
def commitFailMessage : String := "Unable to commit flushed memtable"

/-- Flush-related state of one memtable: the flush flags and file number
(`db/memtable.h` fields used by `memtablelist.cc`), the pending version edit
modelled by its entry count (`edit_.Clear()` sets it to `0`), and the
reference count driven by `Ref`/`Unref`. -/
structure MemTable where
  flush_in_progress_ : Bool := false
  flush_completed_ : Bool := false
  file_number_ : Nat := 0
  edit_ : Nat := 0
  refs_ : Int := 0
deriving DecidableEq

/-- The `MemTableList` state.  `memlist_` stores memtable identifiers newest
first (`Add` does `push_front`); `tables` resolves an identifier to the
memtable object it denotes. -/
structure MemTableList where
  tables : Nat → MemTable
  memlist_ : List Nat
  size_ : Int
  num_flush_not_started_ : Int
  commit_in_progress_ : Bool
  imm_flush_needed : Bool

/-- Pointwise update of the table map: mutation of the memtable object that
identifier `m` denotes. -/
def updTable (tb : Nat → MemTable) (m : Nat) (f : MemTable → MemTable) :
    Nat → MemTable :=
  fun j => if j = m then f (tb j) else tb j

/-- `MemTableList::size()` (lines 37-40): returns `size_`. -/
def MemTableList.size (st : MemTableList) : Int := st.size_

/-- `MemTableList::Add(m)` (lines 171-179), together with the caller-side
construction of the fresh memtable object `mt` that the argument pointer
denotes: `size_++`, `push_front`, `num_flush_not_started_++`, and the
flush-needed signal is stored when the count just became `1`. -/
def MemTableList.add (st : MemTableList) (m : Nat) (mt : MemTable) :
    MemTableList :=
  { st with
    tables := fun j => if j = m then mt else st.tables j
    size_ := st.size_ + 1
    memlist_ := m :: st.memlist_
    num_flush_not_started_ := st.num_flush_not_started_ + 1
    imm_flush_needed :=
      if st.num_flush_not_started_ + 1 = 1 then true else st.imm_flush_needed }

/-- Loop body of `MemTableList::PickMemtablesToFlush` (lines 54-65), iterating
over the identifiers in scan order (oldest first, i.e. over
`memlist_.reverse`).  Threads `(tables, num_flush_not_started_,
imm_flush_needed, ret)`.  For a member not yet `flush_in_progress_`:
`num_flush_not_started_--`, the flush-needed signal is cleared when the count
just reached `0`, the member is marked `flush_in_progress_ = true` and pushed
onto `ret`. -/
def pickLoop : List Nat → ((Nat → MemTable) × Int × Bool × List Nat) →
    (Nat → MemTable) × Int × Bool × List Nat
  | [], acc => acc
  | m :: rest, (tb, nfns, needed, ret) =>
    if (tb m).flush_in_progress_ then
      pickLoop rest (tb, nfns, needed, ret)
    else
      pickLoop rest
        (updTable tb m (fun t => { t with flush_in_progress_ := true }),
         nfns - 1,
         (if nfns - 1 = 0 then false else needed),
         ret ++ [m])

/-- `MemTableList::PickMemtablesToFlush(ret)` (lines 53-66): scan the list
from `rbegin()` (oldest) to `rend()` (newest).  Returns the new list state and
the output vector. -/
def MemTableList.pickMemtablesToFlush (st : MemTableList) :
    MemTableList × List Nat :=
  let r := pickLoop st.memlist_.reverse
    (st.tables, st.num_flush_not_started_, st.imm_flush_needed, [])
  ({ st with
      tables := r.1
      num_flush_not_started_ := r.2.1
      imm_flush_needed := r.2.2.1 }, r.2.2.2)

/-- Observable events of one `InstallMemtableFlushResults` call:
`applied m s` records a `LogAndApply` invocation on `m`'s edit returning `s`;
`committed m` records removal of `m` from the list (lines 139-148);
`rolledBack m fn` records the failure rollback of `m` (lines 153-159), where
`fn` is `m`'s file number at the moment the pending-outputs entry is erased,
i.e. before it is reset to `0`. -/
inductive Ev where
  | applied : Nat → Status → Ev
  | committed : Nat → Ev
  | rolledBack : Nat → Nat → Ev
deriving DecidableEq

/-- State threaded through the commit scan: the list state, the shared
pending-outputs set, the local status variable `s`, the remaining
collaborator results, and the event trace. -/
structure ScanSt where
  st : MemTableList
  pending : Finset Nat
  s : Status
  applyResults : List Status
  events : List Ev

/-- `s = vset->LogAndApply(&m->edit_, mu)` (line 130): consume the next
collaborator result (defaulting to ok when the oracle list is exhausted). -/
def applyStep (σ : ScanSt) (m : Nat) : ScanSt :=
  match σ.applyResults with
  | [] =>
    { σ with s := Status.ok, events := σ.events ++ [Ev.applied m Status.ok] }
  | r :: rest =>
    { σ with
      s := r
      applyResults := rest
      events := σ.events ++ [Ev.applied m r] }

/-- Commit branch of the scan body (lines 135-148): `memlist_.remove(m)`
(which removes every occurrence of the value, like `std::list::remove`),
erase `m->file_number_` from pending outputs, `m->Unref()`, `size_--`. -/
def commitStep (σ : ScanSt) (m : Nat) : ScanSt :=
  { σ with
    st := { σ.st with
      memlist_ := σ.st.memlist_.filter (fun x => decide (x ≠ m))
      tables := updTable σ.st.tables m (fun t => { t with refs_ := t.refs_ - 1 })
      size_ := σ.st.size_ - 1 }
    pending := σ.pending.erase ((σ.st.tables m).file_number_)
    events := σ.events ++ [Ev.committed m] }

/-- Failure branch of the scan body (lines 149-160): reset `m` to the queued
state, `num_flush_not_started_++`, erase the pending-outputs entry at
`m->file_number_` before zeroing that field, store the flush-needed signal,
and synthesize the IO-error status. -/
def rollbackStep (σ : ScanSt) (m : Nat) : ScanSt :=
  { σ with
    st := { σ.st with
      tables := updTable σ.st.tables m (fun t =>
        { t with
          flush_completed_ := false
          flush_in_progress_ := false
          edit_ := 0
          file_number_ := 0 })
      num_flush_not_started_ := σ.st.num_flush_not_started_ + 1
      imm_flush_needed := true }
    pending := σ.pending.erase ((σ.st.tables m).file_number_)
    events := σ.events ++ [Ev.rolledBack m ((σ.st.tables m).file_number_)]
    s := Status.ioError commitFailMessage }

/-- The body of the inner `do`-`while` (lines 134-162): commit on ok status,
roll back otherwise. -/
def bodyStep (σ : ScanSt) (m : Nat) : ScanSt :=
  if σ.s = Status.ok then commitStep σ m else rollbackStep σ m

/-- The commit scan of lines 118-165: the outer `while` together with the
inner `do`-`while`, rendered as one fuelled loop.  The flag `bulk` records
being at the `while` test of the inner `do`-`while` (i.e. a body was just
executed): in that position the next body runs directly whenever the current
tail's `file_number_` equals the `file_number` argument of the call — the
comparison at lines 163-164 is against the call argument — without the outer
loop's status/`flush_completed_` tests and without a `LogAndApply`.
Otherwise control is at the outer `while` head: stop on empty list or non-ok
status, stop (`break`) when the oldest member has not completed its flush,
and otherwise apply its edit and run the body.  The fuel argument only serves
to make the recursion structural; `installMemtableFlushResults` supplies
enough fuel for every terminating execution of the source loop. -/
def scanLoop (file_number : Nat) : Nat → Bool → ScanSt → ScanSt
  | 0, _, σ => σ
  | fuel + 1, bulk, σ =>
    match σ.st.memlist_.getLast? with
    | none => σ
    | some m =>
      if bulk = true ∧ (σ.st.tables m).file_number_ = file_number then
        scanLoop file_number fuel true (bodyStep σ m)
      else if σ.s ≠ Status.ok then σ
      else if (σ.st.tables m).flush_completed_ = false then σ
      else scanLoop file_number fuel true (bodyStep (applyStep σ m) m)

/-- Marking loop of the success path (lines 96-104): every batch member gets
`flush_completed_ = true` and `file_number_ = file_number`.  (The `assert`
that only the first member carries a nonempty edit is a precondition, not an
effect.) -/
def markLoop (file_number : Nat) : List Nat → (Nat → MemTable) →
    Nat → MemTable
  | [], tb => tb
  | m :: rest, tb =>
    markLoop file_number rest
      (updTable tb m (fun t =>
        { t with flush_completed_ := true, file_number_ := file_number }))

/-- Loop of the flush-failure path (lines 80-90): every batch member is reset
to the queued state (`flush_in_progress_ = false`, `flush_completed_ = false`,
edit cleared), `num_flush_not_started_++`, the flush-needed signal is stored,
and `file_number` is erased from pending outputs. -/
def failLoop (file_number : Nat) :
    List Nat → ((Nat → MemTable) × Int × Bool × Finset Nat) →
    (Nat → MemTable) × Int × Bool × Finset Nat
  | [], acc => acc
  | m :: rest, (tb, nfns, _needed, pend) =>
    failLoop file_number rest
      (updTable tb m (fun t =>
        { t with
          flush_in_progress_ := false
          flush_completed_ := false
          edit_ := 0 }),
       nfns + 1,
       true,
       pend.erase file_number)
-- `needed` is overwritten with `true` on every iteration, matching
-- `imm_flush_needed.Release_Store((void *)1)`.

/-- Result of one `InstallMemtableFlushResults` call: the new list state, the
new pending-outputs set, the returned status, and the event trace of the
commit scan. -/
structure InstallResult where
  list : MemTableList
  pending : Finset Nat
  status : Status
  events : List Ev

/-- `MemTableList::InstallMemtableFlushResults` (lines 69-168).  On a non-ok
`flushStatus`, run the reset loop and return the failure unchanged.
Otherwise mark the batch as flush-completed, return the default-constructed
ok status at once if `commit_in_progress_` is already held, and otherwise
claim the guard, run the commit scan, and release the guard before
returning. -/
def MemTableList.installMemtableFlushResults (st : MemTableList)
    (mems : List Nat) (flushStatus : Status) (file_number : Nat)
    (pending_outputs : Finset Nat) (applyResults : List Status) :
    InstallResult :=
  if flushStatus = Status.ok then
    let st₁ : MemTableList := { st with tables := markLoop file_number mems st.tables }
    if st₁.commit_in_progress_ then
      { list := st₁
        pending := pending_outputs
        status := Status.ok
        events := [] }
    else
      let σ := scanLoop file_number (st₁.memlist_.length + 2) false
        { st := { st₁ with commit_in_progress_ := true }
          pending := pending_outputs
          s := Status.ok
          applyResults := applyResults
          events := [] }
      { list := { σ.st with commit_in_progress_ := false }
        pending := σ.pending
        status := σ.s
        events := σ.events }
  else
    let r := failLoop file_number mems
      (st.tables, st.num_flush_not_started_, st.imm_flush_needed,
       pending_outputs)
    { list := { st with
        tables := r.1
        num_flush_not_started_ := r.2.1
        imm_flush_needed := r.2.2.1 }
      pending := r.2.2.2
      status := flushStatus
      events := [] }

/-- Identifiers of the memtables committed by a scan, in commit order. -/
def committedIds (es : List Ev) : List Nat :=
  es.filterMap (fun e => match e with | Ev.committed m => some m | _ => none)

/-- The rollback events of a scan. -/
def rollbackEvents (es : List Ev) : List Ev :=
  es.filter (fun e => match e with | Ev.rolledBack _ _ => true | _ => false)

/-- The empty `MemTableList`. -/
def initState : MemTableList :=
  { tables := fun _ => {}
    memlist_ := []
    size_ := 0
    num_flush_not_started_ := 0
    commit_in_progress_ := false
    imm_flush_needed := false }

/-- States reachable from the empty list by the three mutating operations.
The hypotheses on each operation are the call contracts the source `assert`s
and the flush scheduler establish: `Add` receives a fresh, still-queued
memtable; `InstallMemtableFlushResults` receives a duplicate-free batch of
list members that were picked (`flush_in_progress_`), with no file number
assigned yet when the flush failed (line 82), and a positive flush file
number (line 140). -/
inductive Reachable : MemTableList → Prop where
  | init : Reachable initState
  | add {st : MemTableList} (m : Nat) (mt : MemTable) :
      Reachable st → m ∉ st.memlist_ →
      mt.flush_in_progress_ = false → mt.flush_completed_ = false →
      mt.file_number_ = 0 →
      Reachable (st.add m mt)
  | pick {st : MemTableList} :
      Reachable st → Reachable st.pickMemtablesToFlush.1
  | install {st : MemTableList} (mems : List Nat) (flushStatus : Status)
      (file_number : Nat) (pending_outputs : Finset Nat)
      (applyResults : List Status) :
      Reachable st →
      (∀ m ∈ mems, m ∈ st.memlist_) →
      mems.Nodup →
      (∀ m ∈ mems, (st.tables m).flush_in_progress_ = true) →
      (flushStatus ≠ Status.ok → ∀ m ∈ mems, (st.tables m).file_number_ = 0) →
      file_number ≠ 0 →
      Reachable (st.installMemtableFlushResults mems flushStatus file_number
        pending_outputs applyResults).list

/-- The number of list members on which flush has not started. -/
def notStartedCount (st : MemTableList) : Int :=
  ((st.memlist_.filter (fun m => !(st.tables m).flush_in_progress_)).length : Int)

/-- A member marked flush-completed, or already carrying a flush output file
number, has been selected for flushing. -/
def goodTags (st : MemTableList) : Prop :=
  ∀ m ∈ st.memlist_,
    ((st.tables m).flush_completed_ = true ∨ (st.tables m).file_number_ ≠ 0) →
    (st.tables m).flush_in_progress_ = true

/-- The inductive invariant of the coordinator state. -/
def Inv (st : MemTableList) : Prop :=
  st.size_ = (st.memlist_.length : Int)
  ∧ st.num_flush_not_started_ = notStartedCount st
  ∧ st.memlist_.Nodup
  ∧ goodTags st

/-! ### List helper lemmas -/

lemma getLast?_cons_of_ne_nil {α : Type} (a : α) {t : List α} (h : t ≠ []) :
    (a :: t).getLast? = t.getLast? := by
  cases t with
  | nil => exact absurd rfl h
  | cons b t' => exact List.getLast?_cons_cons

lemma ml_eq_dropLast_append {l : List Nat} {m : Nat} (h : l.getLast? = some m) :
    l.dropLast ++ [m] = l :=
  List.dropLast_append_getLast? m h

lemma mem_of_getLast?_eq {l : List Nat} {m : Nat} (h : l.getLast? = some m) :
    m ∈ l := by
  rw [← ml_eq_dropLast_append h]
  exact List.mem_append_right _ (by simp)

lemma not_mem_dropLast_of_nodup {l : List Nat} {m : Nat}
    (h : l.getLast? = some m) (hnd : l.Nodup) : m ∉ l.dropLast := by
  intro hm
  have e := ml_eq_dropLast_append h
  rw [← e] at hnd
  rcases List.nodup_append.mp hnd with ⟨-, -, hdisj⟩
  exact hdisj hm (by simp)

lemma filter_ne_last {l : List Nat} {m : Nat} (h : l.getLast? = some m)
    (hnd : l.Nodup) : l.filter (fun x => decide (x ≠ m)) = l.dropLast := by
  have e := ml_eq_dropLast_append h
  have hm := not_mem_dropLast_of_nodup h hnd
  conv_lhs => rw [← e]
  rw [List.filter_append]
  have h1 : l.dropLast.filter (fun x => decide (x ≠ m)) = l.dropLast :=
    List.filter_eq_self.mpr (fun x hx => by
      simp only [decide_eq_true_eq]
      rintro rfl
      exact hm hx)
  rw [h1]
  simp

lemma length_filter_singleton (p : Nat → Bool) (m : Nat) :
    (([m] : List Nat).filter p).length = if p m then 1 else 0 := by
  by_cases h : p m <;> simp [h]

/-- Flipping the predicate value at one member of a duplicate-free list
shifts the filtered length by the difference at that member. -/
lemma length_filter_update {l : List Nat} (hnd : l.Nodup) {m : Nat}
    (hm : m ∈ l) {p q : Nat → Bool} (hag : ∀ x, x ≠ m → p x = q x) :
    (l.filter q).length + (if p m then 1 else 0)
      = (l.filter p).length + (if q m then 1 else 0) := by
  induction l with
  | nil => simp at hm
  | cons a t ih =>
    rcases List.nodup_cons.mp hnd with ⟨hat, hndt⟩
    rcases List.mem_cons.mp hm with rfl | hmt
    · have ht : t.filter p = t.filter q :=
        List.filter_congr (fun x hx => hag x (fun e => hat (e ▸ hx)))
      by_cases hp : p m <;> by_cases hq : q m <;>
        simp [List.filter_cons, hp, hq, ht] <;> omega
    · have ha : a ≠ m := fun e => hat (e ▸ hmt)
      have hpa : p a = q a := hag a ha
      have hrec := ih hndt hmt
      by_cases hp : p a <;> by_cases hq : q a <;>
        simp [List.filter_cons, hp, hq] at hpa ⊢ <;> omega

/-! ### The commit-scan specification -/

/-- What one run of the commit scan guarantees, relating the entry state `σ`
to the exit state `σ'` through the events `es` it emitted. -/
structure ScanOk (fn : Nat) (σ σ' : ScanSt) (es : List Ev) : Prop where
  ev : σ'.events = σ.events ++ es
  ml : σ'.st.memlist_ ++ (committedIds es).reverse = σ.st.memlist_
  size : σ'.st.size_ = σ.st.size_ - ((committedIds es).length : Int)
  nfns : σ'.st.num_flush_not_started_
      = σ.st.num_flush_not_started_ + ((rollbackEvents es).length : Int)
  pend : σ'.pending ⊆ σ.pending
  untouched : ∀ x, x ∉ committedIds es → (∀ f, Ev.rolledBack x f ∉ es) →
    σ'.st.tables x = σ.st.tables x
  comm : ∀ m ∈ committedIds es,
    σ'.st.tables m = { σ.st.tables m with refs_ := (σ.st.tables m).refs_ - 1 }
    ∧ (σ.st.tables m).file_number_ ∉ σ'.pending
  roll : ∀ m f, Ev.rolledBack m f ∈ es →
    f = (σ.st.tables m).file_number_
    ∧ σ'.st.tables m = { σ.st.tables m with
        flush_in_progress_ := false
        flush_completed_ := false
        edit_ := 0
        file_number_ := 0 }
    ∧ m ∈ σ'.st.memlist_
    ∧ f ∉ σ'.pending
    ∧ σ'.st.imm_flush_needed = true
  rollOnce : (rollbackEvents es).length ≤ 1
  sKind : σ'.s ≠ Status.ok →
    σ'.s = σ.s ∨ σ'.s = Status.ioError commitFailMessage
  sLast : σ'.s ≠ Status.ok → σ.s = Status.ok →
    ∃ m f, es.getLast? = some (Ev.rolledBack m f)
  bulkFn : ∀ m ∈ committedIds es,
    (∃ r, Ev.applied m r ∈ σ'.events) ∨ (σ.st.tables m).file_number_ = fn
  immSame : rollbackEvents es = [] →
    σ'.st.imm_flush_needed = σ.st.imm_flush_needed
  inv : σ.st.num_flush_not_started_ = notStartedCount σ.st ∧ goodTags σ.st →
    σ'.st.num_flush_not_started_ = notStartedCount σ'.st ∧ goodTags σ'.st

lemma scanOk_refl (fn : Nat) (σ : ScanSt) : ScanOk fn σ σ [] where
  ev := by simp
  ml := by simp [committedIds]
  size := by simp [committedIds]
  nfns := by simp [rollbackEvents]
  pend := Finset.Subset.refl _
  untouched := fun _ _ _ => rfl
  comm := by simp [committedIds]
  roll := by simp
  rollOnce := by simp [rollbackEvents]
  sKind := fun _ => Or.inl rfl
  sLast := fun h h2 => absurd h2 (fun e => h (e ▸ rfl))
  bulkFn := by simp [committedIds]
  immSame := fun _ => rfl
  inv := id

/-- The scan makes no step when the status is non-ok and the tail does not
match the call's file number: the inner continuation test fails and the outer
`while` condition fails. -/
lemma scanLoop_stuck (fn : Nat) (fuel : Nat) (bulk : Bool) (σ : ScanSt)
    (hs : σ.s ≠ Status.ok)
    (hb : ∀ m, σ.st.memlist_.getLast? = some m →
      (σ.st.tables m).file_number_ ≠ fn) :
    scanLoop fn fuel bulk σ = σ := by
  cases fuel with
  | zero => rfl
  | succ fuel =>
    rw [scanLoop]
    cases hL : σ.st.memlist_.getLast? with
    | none => simp [hL]
    | some m =>
      have hA : ¬(bulk = true ∧ (σ.st.tables m).file_number_ = fn) :=
        fun h => hb m hL h.2
      simp [hL, hA, hs]

lemma committedIds_cons_committed (m : Nat) (es : List Ev) :
    committedIds (Ev.committed m :: es) = m :: committedIds es := by
  simp [committedIds]

lemma committedIds_cons_applied (m : Nat) (r : Status) (es : List Ev) :
    committedIds (Ev.applied m r :: es) = committedIds es := by
  simp [committedIds]

lemma committedIds_cons_rolledBack (m f : Nat) (es : List Ev) :
    committedIds (Ev.rolledBack m f :: es) = committedIds es := by
  simp [committedIds]

lemma rollbackEvents_cons_committed (m : Nat) (es : List Ev) :
    rollbackEvents (Ev.committed m :: es) = rollbackEvents es := by
  simp [rollbackEvents]

lemma rollbackEvents_cons_applied (m : Nat) (r : Status) (es : List Ev) :
    rollbackEvents (Ev.applied m r :: es) = rollbackEvents es := by
  simp [rollbackEvents]

lemma rollbackEvents_cons_rolledBack (m f : Nat) (es : List Ev) :
    rollbackEvents (Ev.rolledBack m f :: es)
      = Ev.rolledBack m f :: rollbackEvents es := by
  simp [rollbackEvents]

/-- Absorbing one commit body (lines 135-148) on the left of a scan run.
`hsel` records how the body was reached: after a `LogAndApply` on `m` (whose
event is already in `σ.events`), or through the inner continuation test,
in which case `m` carries the call's file number.  `hsel2` records the entry
test that guarded the body (outer `flush_completed_` test or inner file
number test). -/
lemma scanOk_commit_left {fn : Nat} {σ σ' : ScanSt} {m : Nat} {es₁ : List Ev}
    (hlast : σ.st.memlist_.getLast? = some m)
    (hnd : σ.st.memlist_.Nodup)
    (hsel : (∃ r, Ev.applied m r ∈ σ.events) ∨ (σ.st.tables m).file_number_ = fn)
    (hsel2 : (σ.st.tables m).flush_completed_ = true
      ∨ (σ.st.tables m).file_number_ ≠ 0)
    (h1 : ScanOk fn (commitStep σ m) σ' es₁) :
    ScanOk fn σ σ' (Ev.committed m :: es₁) := by
  have e_ml : (commitStep σ m).st.memlist_ = σ.st.memlist_.dropLast := by
    show σ.st.memlist_.filter (fun x => decide (x ≠ m)) = σ.st.memlist_.dropLast
    exact filter_ne_last hlast hnd
  have e_tb : ∀ x, x ≠ m → (commitStep σ m).st.tables x = σ.st.tables x := by
    intro x hx
    simp [commitStep, updTable, hx]
  have e_tbm : (commitStep σ m).st.tables m
      = { σ.st.tables m with refs_ := (σ.st.tables m).refs_ - 1 } := by
    simp [commitStep, updTable]
  have e_ev : (commitStep σ m).events = σ.events ++ [Ev.committed m] := rfl
  have e_s : (commitStep σ m).s = σ.s := rfl
  have e_app : σ.st.memlist_.dropLast ++ [m] = σ.st.memlist_ :=
    ml_eq_dropLast_append hlast
  have hsub' : ∀ x ∈ σ'.st.memlist_, x ∈ (commitStep σ m).st.memlist_ := by
    intro x hx
    rw [← h1.ml]
    exact List.mem_append_left _ hx
  have hcsub : ∀ x ∈ committedIds es₁, x ∈ (commitStep σ m).st.memlist_ := by
    intro x hx
    rw [← h1.ml]
    exact List.mem_append_right _ (List.mem_reverse.mpr hx)
  have hm_not₁ : m ∉ (commitStep σ m).st.memlist_ := by
    rw [e_ml]
    exact not_mem_dropLast_of_nodup hlast hnd
  have hm_notc : m ∉ committedIds es₁ := fun h => hm_not₁ (hcsub m h)
  have hm_notr : ∀ f, Ev.rolledBack m f ∉ es₁ :=
    fun f hf => hm_not₁ (hsub' m (h1.roll m f hf).2.2.1)
  have e_tb' : σ'.st.tables m
      = { σ.st.tables m with refs_ := (σ.st.tables m).refs_ - 1 } := by
    rw [h1.untouched m hm_notc hm_notr, e_tbm]
  refine
    { ev := ?_, ml := ?_, size := ?_, nfns := ?_, pend := ?_, untouched := ?_
      comm := ?_, roll := ?_, rollOnce := ?_, sKind := ?_, sLast := ?_
      bulkFn := ?_, immSame := ?_, inv := ?_ }
  · rw [h1.ev, e_ev]
    simp
  · rw [committedIds_cons_committed, List.reverse_cons, ← List.append_assoc,
      h1.ml, e_ml, e_app]
  · rw [h1.size, committedIds_cons_committed, List.length_cons]
    have : (commitStep σ m).st.size_ = σ.st.size_ - 1 := rfl
    rw [this]
    push_cast
    ring
  · rw [h1.nfns, rollbackEvents_cons_committed]
    rfl
  · exact h1.pend.trans (Finset.erase_subset _ _)
  · intro x hxc hxr
    rw [committedIds_cons_committed] at hxc
    have hxm : x ≠ m := fun e => hxc (e ▸ List.mem_cons_self _ _)
    rw [h1.untouched x (fun h => hxc (List.mem_cons_of_mem _ h))
      (fun f hf => hxr f (List.mem_cons_of_mem _ hf)), e_tb x hxm]
  · intro m' hm'
    rw [committedIds_cons_committed] at hm'
    rcases List.mem_cons.mp hm' with rfl | hm'c
    · refine ⟨e_tb', fun h => ?_⟩
      exact (Finset.not_mem_erase _ _) (h1.pend h)
    · have hne : m' ≠ m := fun e => hm_not₁ (e ▸ hcsub m' hm'c)
      have h0 := h1.comm m' hm'c
      rw [e_tb m' hne] at h0
      exact h0
  · intro m₀ f hf
    have hf' : Ev.rolledBack m₀ f ∈ es₁ := by
      rcases List.mem_cons.mp hf with h | h
      · cases h
      · exact h
    have h0 := h1.roll m₀ f hf'
    have hne : m₀ ≠ m := fun e => hm_not₁ (e ▸ hsub' m₀ h0.2.2.1)
    rw [e_tb m₀ hne] at h0
    exact h0
  · rw [rollbackEvents_cons_committed]
    exact h1.rollOnce
  · intro h
    rcases h1.sKind h with h2 | h2
    · exact Or.inl (h2.trans e_s)
    · exact Or.inr h2
  · intro h hok
    obtain ⟨m₀, f, hgl⟩ := h1.sLast h (by rw [e_s]; exact hok)
    refine ⟨m₀, f, ?_⟩
    have hne : es₁ ≠ [] := by
      rintro rfl
      simp at hgl
    rw [getLast?_cons_of_ne_nil _ hne]
    exact hgl
  · intro m' hm'
    rw [committedIds_cons_committed] at hm'
    rcases List.mem_cons.mp hm' with rfl | hm'c
    · rcases hsel with ⟨r, hr⟩ | hfn
      · exact Or.inl ⟨r, by
          rw [h1.ev, e_ev]
          exact List.mem_append_left _ (List.mem_append_left _ hr)⟩
      · exact Or.inr hfn
    · rcases h1.bulkFn m' hm'c with h | h
      · exact Or.inl h
      · have hne : m' ≠ m := fun e => hm_not₁ (e ▸ hcsub m' hm'c)
        refine Or.inr ?_
        rw [← e_tb m' hne]
        exact h
  · intro h
    rw [rollbackEvents_cons_committed] at h
    rw [h1.immSame h]
    rfl
  · intro hI
    obtain ⟨hc, hg⟩ := hI
    have hfip : (σ.st.tables m).flush_in_progress_ = true :=
      hg m (mem_of_getLast?_eq hlast) hsel2
    have hpred : ∀ x, (!((commitStep σ m).st.tables x).flush_in_progress_)
        = (!(σ.st.tables x).flush_in_progress_) := by
      intro x
      by_cases hx : x = m
      · subst hx
        rw [e_tbm]
      · rw [e_tb x hx]
    have e1 : notStartedCount (commitStep σ m).st
        = ((σ.st.memlist_.dropLast.filter
            (fun x => !(σ.st.tables x).flush_in_progress_)).length : Int) := by
      unfold notStartedCount
      rw [e_ml, List.filter_congr (fun x _ => hpred x)]
    have e2 : notStartedCount σ.st
        = ((σ.st.memlist_.dropLast.filter
            (fun x => !(σ.st.tables x).flush_in_progress_)).length : Int) := by
      unfold notStartedCount
      conv_lhs => rw [← e_app]
      rw [List.filter_append]
      simp [hfip]
    apply h1.inv
    constructor
    · calc (commitStep σ m).st.num_flush_not_started_
          = σ.st.num_flush_not_started_ := rfl
        _ = notStartedCount σ.st := hc
        _ = notStartedCount (commitStep σ m).st := by rw [e1, e2]
    · intro x hx hcond
      have hxm : x ≠ m := fun e => hm_not₁ (e ▸ hx)
      have hxmem : x ∈ σ.st.memlist_ := by
        rw [← e_app]
        rw [e_ml] at hx
        exact List.mem_append_left _ hx
      rw [e_tb x hxm] at hcond ⊢
      exact hg x hxmem hcond

/-- Absorbing the `LogAndApply` event (line 130) on the left of a scan run.
`σ₁` is `σ` after recording the apply; the body that consumed the resulting
status is already part of the run `h1`.  The status conclusions that depend
on what that body did are passed through `h12`/`hsl`. -/
lemma scanOk_applied_left {fn : Nat} {σ σ₁ σ' : ScanSt} {m : Nat} {r : Status}
    {es₁ : List Ev}
    (hst : σ₁.st = σ.st) (hpend : σ₁.pending = σ.pending)
    (hev : σ₁.events = σ.events ++ [Ev.applied m r])
    (h12 : σ'.s ≠ Status.ok → σ'.s = Status.ioError commitFailMessage)
    (hsl : σ'.s ≠ Status.ok → σ.s = Status.ok →
      ∃ m₀ f, es₁.getLast? = some (Ev.rolledBack m₀ f))
    (h1 : ScanOk fn σ₁ σ' es₁) :
    ScanOk fn σ σ' (Ev.applied m r :: es₁) := by
  refine
    { ev := ?_, ml := ?_, size := ?_, nfns := ?_, pend := ?_, untouched := ?_
      comm := ?_, roll := ?_, rollOnce := ?_, sKind := ?_, sLast := ?_
      bulkFn := ?_, immSame := ?_, inv := ?_ }
  · rw [h1.ev, hev]
    simp
  · rw [committedIds_cons_applied, ← hst]
    exact h1.ml
  · rw [committedIds_cons_applied, ← hst]
    exact h1.size
  · rw [rollbackEvents_cons_applied, ← hst]
    exact h1.nfns
  · rw [← hpend]
    exact h1.pend
  · intro x hxc hxr
    rw [committedIds_cons_applied] at hxc
    rw [← hst]
    exact h1.untouched x hxc (fun f hf => hxr f (List.mem_cons_of_mem _ hf))
  · intro m' hm'
    rw [committedIds_cons_applied] at hm'
    rw [← hst]
    exact h1.comm m' hm'
  · intro m₀ f hf
    have hf' : Ev.rolledBack m₀ f ∈ es₁ := by
      rcases List.mem_cons.mp hf with h | h
      · cases h
      · exact h
    rw [← hst]
    exact h1.roll m₀ f hf'
  · rw [rollbackEvents_cons_applied]
    exact h1.rollOnce
  · intro h
    exact Or.inr (h12 h)
  · intro h hok
    obtain ⟨m₀, f, hgl⟩ := hsl h hok
    refine ⟨m₀, f, ?_⟩
    have hne : es₁ ≠ [] := by
      rintro rfl
      simp at hgl
    rw [getLast?_cons_of_ne_nil _ hne]
    exact hgl
  · intro m' hm'
    rw [committedIds_cons_applied] at hm'
    rcases h1.bulkFn m' hm' with h | h
    · exact Or.inl h
    · rw [hst] at h
      exact Or.inr h
  · intro h
    rw [rollbackEvents_cons_applied] at h
    rw [← hst]
    exact h1.immSame h
  · intro h
    rw [← hst] at h
    exact h1.inv h

/-- A single rollback body (lines 149-160) as a one-event scan run. -/
lemma scanOk_rollback (fn : Nat) (σ : ScanSt) (m : Nat)
    (hlast : σ.st.memlist_.getLast? = some m)
    (hsel2 : (σ.st.tables m).flush_completed_ = true
      ∨ (σ.st.tables m).file_number_ ≠ 0)
    (hnd : σ.st.memlist_.Nodup) :
    ScanOk fn σ (rollbackStep σ m)
      [Ev.rolledBack m ((σ.st.tables m).file_number_)] := by
  have e_tb : ∀ x, x ≠ m → (rollbackStep σ m).st.tables x = σ.st.tables x := by
    intro x hx
    simp [rollbackStep, updTable, hx]
  have e_tbm : (rollbackStep σ m).st.tables m
      = { σ.st.tables m with
          flush_in_progress_ := false
          flush_completed_ := false
          edit_ := 0
          file_number_ := 0 } := by
    simp [rollbackStep, updTable]
  refine
    { ev := rfl, ml := ?_, size := ?_, nfns := ?_, pend := ?_, untouched := ?_
      comm := ?_, roll := ?_, rollOnce := ?_, sKind := ?_, sLast := ?_
      bulkFn := ?_, immSame := ?_, inv := ?_ }
  · rw [committedIds_cons_rolledBack]
    simp [committedIds, rollbackStep]
  · rw [committedIds_cons_rolledBack]
    simp [committedIds, rollbackStep]
  · rw [rollbackEvents_cons_rolledBack]
    simp [rollbackEvents, rollbackStep]
  · exact Finset.erase_subset _ _
  · intro x _ hxr
    have hxm : x ≠ m := by
      rintro rfl
      exact hxr ((σ.st.tables x).file_number_) (List.mem_singleton.mpr rfl)
    exact e_tb x hxm
  · intro m' hm'
    rw [committedIds_cons_rolledBack] at hm'
    simp [committedIds] at hm'
  · intro m₀ f hf
    rw [List.mem_singleton] at hf
    cases hf
    refine ⟨rfl, e_tbm, mem_of_getLast?_eq hlast, Finset.not_mem_erase _ _, rfl⟩
  · rw [rollbackEvents_cons_rolledBack]
    simp [rollbackEvents]
  · intro _
    exact Or.inr rfl
  · intro _ _
    exact ⟨m, (σ.st.tables m).file_number_, rfl⟩
  · intro m' hm'
    rw [committedIds_cons_rolledBack] at hm'
    simp [committedIds] at hm'
  · intro h
    rw [rollbackEvents_cons_rolledBack] at h
    cases h
  · intro hI
    obtain ⟨hc, hg⟩ := hI
    have hmem : m ∈ σ.st.memlist_ := mem_of_getLast?_eq hlast
    have hfip : (σ.st.tables m).flush_in_progress_ = true := hg m hmem hsel2
    constructor
    · have hupd := length_filter_update hnd hmem
        (p := fun x => !(σ.st.tables x).flush_in_progress_)
        (q := fun x => !((rollbackStep σ m).st.tables x).flush_in_progress_)
        (fun x hx => by dsimp only; rw [e_tb x hx])
      dsimp only at hupd
      rw [hfip] at hupd
      have hq : ((rollbackStep σ m).st.tables m).flush_in_progress_ = false := by
        rw [e_tbm]
      rw [hq] at hupd
      simp at hupd
      have e_nfns : (rollbackStep σ m).st.num_flush_not_started_
          = σ.st.num_flush_not_started_ + 1 := rfl
      have e_ml' : (rollbackStep σ m).st.memlist_ = σ.st.memlist_ := rfl
      unfold notStartedCount
      rw [e_nfns, e_ml', hc]
      unfold notStartedCount
      omega
    · intro x hx hcond
      by_cases hxm : x = m
      · subst hxm
        rw [e_tbm] at hcond
        simp at hcond
      · rw [e_tb x hxm] at hcond ⊢
        exact hg x hx hcond

/-- Main specification of the commit scan: every run (at any fuel) satisfies
`ScanOk`. -/
theorem scanLoop_scanOk (fn : Nat) (hfn : fn ≠ 0) :
    ∀ (fuel : Nat) (bulk : Bool) (σ : ScanSt), σ.st.memlist_.Nodup →
    ∃ es, ScanOk fn σ (scanLoop fn fuel bulk σ) es := by
  intro fuel
  induction fuel with
  | zero =>
    intro bulk σ _
    exact ⟨[], scanOk_refl fn σ⟩
  | succ fuel ih =>
    intro bulk σ hnd
    rw [scanLoop]
    cases hL : σ.st.memlist_.getLast? with
    | none => exact ⟨[], scanOk_refl fn σ⟩
    | some m =>
      show ∃ es, ScanOk fn σ
        (if bulk = true ∧ (σ.st.tables m).file_number_ = fn then
          scanLoop fn fuel true (bodyStep σ m)
        else if σ.s ≠ Status.ok then σ
        else if (σ.st.tables m).flush_completed_ = false then σ
        else scanLoop fn fuel true (bodyStep (applyStep σ m) m)) es
      by_cases hA : bulk = true ∧ (σ.st.tables m).file_number_ = fn
      · rw [if_pos hA]
        have hsel2 : (σ.st.tables m).flush_completed_ = true
            ∨ (σ.st.tables m).file_number_ ≠ 0 := Or.inr (by rw [hA.2]; exact hfn)
        by_cases hs : σ.s = Status.ok
        · -- inner continuation, commit body
          simp only [bodyStep, if_pos hs]
          have hnd₁ : (commitStep σ m).st.memlist_.Nodup := by
            show (σ.st.memlist_.filter _).Nodup
            exact hnd.filter _
          obtain ⟨es₁, h1⟩ := ih true (commitStep σ m) hnd₁
          exact ⟨Ev.committed m :: es₁,
            scanOk_commit_left hL hnd (Or.inr hA.2) hsel2 h1⟩
        · -- inner continuation, rollback body; then the scan is stuck
          simp only [bodyStep, if_neg hs]
          have hstuck : scanLoop fn fuel true (rollbackStep σ m)
              = rollbackStep σ m := by
            apply scanLoop_stuck
            · intro h
              cases h
            · intro m' hm'
              have e_ml' : (rollbackStep σ m).st.memlist_ = σ.st.memlist_ := rfl
              rw [e_ml', hL] at hm'
              cases hm'
              show (updTable σ.st.tables m _ m).file_number_ ≠ fn
              simp [updTable]
              exact fun h => hfn h.symm
          rw [hstuck]
          exact ⟨[Ev.rolledBack m ((σ.st.tables m).file_number_)],
            scanOk_rollback fn σ m hL hsel2 hnd⟩
      · rw [if_neg hA]
        by_cases hs : σ.s = Status.ok
        · rw [if_neg (fun h => h hs)]
          by_cases hfc : (σ.st.tables m).flush_completed_ = false
          · rw [if_pos hfc]
            exact ⟨[], scanOk_refl fn σ⟩
          · rw [if_neg hfc]
            have hfc' : (σ.st.tables m).flush_completed_ = true := by
              cases h : (σ.st.tables m).flush_completed_
              · exact absurd h hfc
              · rfl
            -- the status the apply consumed
            rcases hOr : σ.applyResults with _ | ⟨r, rest⟩
            · -- oracle exhausted: the apply returns ok, commit body
              have e_apst : (applyStep σ m).st = σ.st := by
                simp [applyStep, hOr]
              have e_appd : (applyStep σ m).pending = σ.pending := by
                simp [applyStep, hOr]
              have e_apev : (applyStep σ m).events
                  = σ.events ++ [Ev.applied m Status.ok] := by
                simp [applyStep, hOr]
              have e_aps : (applyStep σ m).s = Status.ok := by
                simp [applyStep, hOr]
              simp only [bodyStep, e_aps, if_pos]
              have hnd₁ : (commitStep (applyStep σ m) m).st.memlist_.Nodup := by
                show ((applyStep σ m).st.memlist_.filter _).Nodup
                rw [e_apst]
                exact hnd.filter _
              obtain ⟨es₁, h1⟩ := ih true (commitStep (applyStep σ m) m) hnd₁
              have h2 : ScanOk fn (applyStep σ m)
                  (scanLoop fn fuel true (commitStep (applyStep σ m) m))
                  (Ev.committed m :: es₁) := by
                apply scanOk_commit_left
                · rw [e_apst]
                  exact hL
                · rw [e_apst]
                  exact hnd
                · exact Or.inl ⟨Status.ok, by
                    rw [e_apev]
                    exact List.mem_append_right _ (List.mem_singleton.mpr rfl)⟩
                · rw [e_apst]
                  exact Or.inl hfc'
                · exact h1
              refine ⟨Ev.applied m Status.ok :: Ev.committed m :: es₁,
                scanOk_applied_left e_apst e_appd e_apev ?_ ?_ h2⟩
              · intro hbad
                rcases h2.sKind hbad with h | h
                · rw [e_aps] at h
                  exact absurd h hbad
                · exact h
              · intro hbad _
                exact h2.sLast hbad e_aps
            · -- oracle returns r
              have e_apst : (applyStep σ m).st = σ.st := by
                simp [applyStep, hOr]
              have e_appd : (applyStep σ m).pending = σ.pending := by
                simp [applyStep, hOr]
              have e_apev : (applyStep σ m).events
                  = σ.events ++ [Ev.applied m r] := by
                simp [applyStep, hOr]
              have e_aps : (applyStep σ m).s = r := by
                simp [applyStep, hOr]
              by_cases hr : r = Status.ok
              · -- successful apply, commit body
                simp only [bodyStep, e_aps, hr, if_pos]
                have hnd₁ : (commitStep (applyStep σ m) m).st.memlist_.Nodup := by
                  show ((applyStep σ m).st.memlist_.filter _).Nodup
                  rw [e_apst]
                  exact hnd.filter _
                obtain ⟨es₁, h1⟩ := ih true (commitStep (applyStep σ m) m) hnd₁
                have h2 : ScanOk fn (applyStep σ m)
                    (scanLoop fn fuel true (commitStep (applyStep σ m) m))
                    (Ev.committed m :: es₁) := by
                  apply scanOk_commit_left
                  · rw [e_apst]
                    exact hL
                  · rw [e_apst]
                    exact hnd
                  · exact Or.inl ⟨r, by
                      rw [e_apev]
                      exact List.mem_append_right _ (List.mem_singleton.mpr rfl)⟩
                  · rw [e_apst]
                    exact Or.inl hfc'
                  · exact h1
                refine ⟨Ev.applied m r :: Ev.committed m :: es₁,
                  scanOk_applied_left e_apst e_appd e_apev ?_ ?_ h2⟩
                · intro hbad
                  rcases h2.sKind hbad with h | h
                  · rw [e_aps, hr] at h
                    exact absurd h hbad
                  · exact h
                · intro hbad _
                  exact h2.sLast hbad (by rw [e_aps, hr])
              · -- failed apply, rollback body; then the scan is stuck
                have e_abody : bodyStep (applyStep σ m) m
                    = rollbackStep (applyStep σ m) m := by
                  simp only [bodyStep, e_aps]
                  rw [if_neg hr]
                rw [e_abody]
                have hstuck : scanLoop fn fuel true
                    (rollbackStep (applyStep σ m) m)
                    = rollbackStep (applyStep σ m) m := by
                  apply scanLoop_stuck
                  · intro h
                    cases h
                  · intro m' hm'
                    have e_ml' : (rollbackStep (applyStep σ m) m).st.memlist_
                        = σ.st.memlist_ := by
                      show (applyStep σ m).st.memlist_ = σ.st.memlist_
                      rw [e_apst]
                    rw [e_ml', hL] at hm'
                    cases hm'
                    show (updTable (applyStep σ m).st.tables m _ m).file_number_ ≠ fn
                    simp [updTable]
                    exact fun h => hfn h.symm
                rw [hstuck]
                have h2 : ScanOk fn (applyStep σ m)
                    (rollbackStep (applyStep σ m) m)
                    [Ev.rolledBack m (((applyStep σ m).st.tables m).file_number_)] := by
                  apply scanOk_rollback
                  · rw [e_apst]
                    exact hL
                  · rw [e_apst]
                    exact Or.inl hfc'
                  · rw [e_apst]
                    exact hnd
                refine ⟨Ev.applied m r ::
                  [Ev.rolledBack m (((applyStep σ m).st.tables m).file_number_)],
                  scanOk_applied_left e_apst e_appd e_apev ?_ ?_ h2⟩
                · intro _
                  rfl
                · intro _ _
                  exact ⟨m, ((applyStep σ m).st.tables m).file_number_, rfl⟩
        · rw [if_pos (fun h => hs h)]
          exact ⟨[], scanOk_refl fn σ⟩

/-! ### Specifications of the marking, failure-reset and pick loops -/

lemma markLoop_not_mem (fn : Nat) :
    ∀ (mems : List Nat) (tb : Nat → MemTable) (x : Nat), x ∉ mems →
    markLoop fn mems tb x = tb x := by
  intro mems
  induction mems with
  | nil => intro tb x _; rfl
  | cons m rest ih =>
    intro tb x hx
    have hxm : x ≠ m := fun e => hx (e ▸ List.mem_cons_self _ _)
    have hxr : x ∉ rest := fun h => hx (List.mem_cons_of_mem _ h)
    show markLoop fn rest _ x = tb x
    rw [ih _ x hxr]
    simp [updTable, hxm]

lemma markLoop_mem (fn : Nat) :
    ∀ (mems : List Nat) (tb : Nat → MemTable) (x : Nat), x ∈ mems →
    markLoop fn mems tb x
      = { tb x with flush_completed_ := true, file_number_ := fn } := by
  intro mems
  induction mems with
  | nil => intro tb x hx; simp at hx
  | cons m rest ih =>
    intro tb x hx
    by_cases hxr : x ∈ rest
    · rw [show markLoop fn (m :: rest) tb = markLoop fn rest (updTable tb m _) from rfl,
        ih _ x hxr]
      by_cases hxm : x = m
      · subst hxm
        simp [updTable]
      · simp [updTable, hxm]
    · have hxm : x = m := by
        rcases List.mem_cons.mp hx with h | h
        · exact h
        · exact absurd h hxr
      subst hxm
      show markLoop fn rest _ x = _
      rw [markLoop_not_mem fn rest _ x hxr]
      simp [updTable]

lemma markLoop_preserves (fn : Nat) :
    ∀ (mems : List Nat) (tb : Nat → MemTable) (x : Nat),
    (markLoop fn mems tb x).flush_in_progress_ = (tb x).flush_in_progress_
    ∧ (markLoop fn mems tb x).refs_ = (tb x).refs_
    ∧ (markLoop fn mems tb x).edit_ = (tb x).edit_ := by
  intro mems
  induction mems with
  | nil => intro tb x; exact ⟨rfl, rfl, rfl⟩
  | cons m rest ih =>
    intro tb x
    have h := ih (updTable tb m
      (fun t => { t with flush_completed_ := true, file_number_ := fn })) x
    have e : markLoop fn (m :: rest) tb
        = markLoop fn rest (updTable tb m
          (fun t => { t with flush_completed_ := true, file_number_ := fn })) :=
      rfl
    rw [e]
    refine ⟨?_, ?_, ?_⟩ <;> [rw [h.1]; rw [h.2.1]; rw [h.2.2]] <;>
      by_cases hxm : x = m <;> simp [updTable, hxm]

lemma failLoop_spec (fn : Nat) :
    ∀ (mems : List Nat) (tb : Nat → MemTable) (nfns : Int) (needed : Bool)
      (pend : Finset Nat),
    (∀ x, x ∉ mems → (failLoop fn mems (tb, nfns, needed, pend)).1 x = tb x)
    ∧ (∀ x ∈ mems, (failLoop fn mems (tb, nfns, needed, pend)).1 x
        = { tb x with
            flush_in_progress_ := false
            flush_completed_ := false
            edit_ := 0 })
    ∧ (failLoop fn mems (tb, nfns, needed, pend)).2.1 = nfns + mems.length
    ∧ (failLoop fn mems (tb, nfns, needed, pend)).2.2.1
        = (if mems = [] then needed else true)
    ∧ (mems = [] → (failLoop fn mems (tb, nfns, needed, pend)).2.2.2 = pend)
    ∧ (mems ≠ [] → fn ∉ (failLoop fn mems (tb, nfns, needed, pend)).2.2.2
        ∧ (failLoop fn mems (tb, nfns, needed, pend)).2.2.2 ⊆ pend) := by
  intro mems
  induction mems with
  | nil =>
    intro tb nfns needed pend
    exact ⟨fun x _ => rfl, by simp, by simp [failLoop], by simp [failLoop],
      fun _ => rfl, fun h => absurd rfl h⟩
  | cons m rest ih =>
    intro tb nfns needed pend
    have e : failLoop fn (m :: rest) (tb, nfns, needed, pend)
        = failLoop fn rest
          (updTable tb m (fun t =>
            { t with
              flush_in_progress_ := false
              flush_completed_ := false
              edit_ := 0 }),
           nfns + 1, true, pend.erase fn) := rfl
    obtain ⟨ih1, ih2, ih3, ih4, ih5, ih6⟩ := ih (updTable tb m (fun t =>
      { t with
        flush_in_progress_ := false
        flush_completed_ := false
        edit_ := 0 })) (nfns + 1) true (pend.erase fn)
    refine ⟨?_, ?_, ?_, ?_, ?_, ?_⟩
    · intro x hx
      have hxm : x ≠ m := fun h => hx (h ▸ List.mem_cons_self _ _)
      have hxr : x ∉ rest := fun h => hx (List.mem_cons_of_mem _ h)
      rw [e, ih1 x hxr]
      simp [updTable, hxm]
    · intro x hx
      rw [e]
      by_cases hxr : x ∈ rest
      · rw [ih2 x hxr]
        by_cases hxm : x = m
        · subst hxm
          simp [updTable]
        · simp [updTable, hxm]
      · have hxm : x = m := by
          rcases List.mem_cons.mp hx with h | h
          · exact h
          · exact absurd h hxr
        subst hxm
        rw [ih1 x hxr]
        simp [updTable]
    · rw [e, ih3, List.length_cons]
      push_cast
      ring
    · rw [e, ih4]
      cases hrest : rest with
      | nil => simp
      | cons a l => simp
    · intro h
      cases h
    · intro _
      rw [e]
      cases hrest : rest with
      | nil =>
        subst hrest
        rw [ih5 rfl]
        exact ⟨Finset.not_mem_erase _ _, Finset.erase_subset _ _⟩
      | cons a l =>
        have hne : rest ≠ [] := by rw [hrest]; exact List.cons_ne_nil _ _
        rw [← hrest]
        obtain ⟨h1, h2⟩ := ih6 hne
        exact ⟨h1, h2.trans (Finset.erase_subset _ _)⟩

lemma pickLoop_spec :
    ∀ (l : List Nat) (tb : Nat → MemTable) (nfns : Int) (needed : Bool)
      (ret : List Nat), l.Nodup →
    (pickLoop l (tb, nfns, needed, ret)).2.2.2
      = ret ++ l.filter (fun m => !(tb m).flush_in_progress_)
    ∧ (pickLoop l (tb, nfns, needed, ret)).2.1
      = nfns - ((l.filter (fun m => !(tb m).flush_in_progress_)).length : Int)
    ∧ (∀ x, x ∉ l → (pickLoop l (tb, nfns, needed, ret)).1 x = tb x)
    ∧ (∀ x ∈ l, (pickLoop l (tb, nfns, needed, ret)).1 x
        = (if (tb x).flush_in_progress_ then tb x
           else { tb x with flush_in_progress_ := true }))
    ∧ (pickLoop l (tb, nfns, needed, ret)).2.2.1
      = (if 1 ≤ nfns ∧ nfns
            ≤ ((l.filter (fun m => !(tb m).flush_in_progress_)).length : Int)
         then false else needed) := by
  intro l
  induction l with
  | nil =>
    intro tb nfns needed ret _
    refine ⟨by simp [pickLoop], by simp [pickLoop], fun x _ => rfl,
      by simp, ?_⟩
    rw [if_neg (by
      rintro ⟨h1, h2⟩
      simp at h2
      omega)]
    rfl
  | cons m rest ih =>
    intro tb nfns needed ret hnd
    obtain ⟨hmr, hndr⟩ := List.nodup_cons.mp hnd
    by_cases hfip : (tb m).flush_in_progress_
    · have e : pickLoop (m :: rest) (tb, nfns, needed, ret)
          = pickLoop rest (tb, nfns, needed, ret) := by
        simp [pickLoop, hfip]
      have efil : (m :: rest).filter (fun x => !(tb x).flush_in_progress_)
          = rest.filter (fun x => !(tb x).flush_in_progress_) := by
        simp [List.filter_cons, hfip]
      obtain ⟨ih1, ih2, ih3, ih4, ih5⟩ := ih tb nfns needed ret hndr
      refine ⟨?_, ?_, ?_, ?_, ?_⟩
      · rw [e, efil, ih1]
      · rw [e, efil, ih2]
      · intro x hx
        rw [e]
        exact ih3 x (fun h => hx (List.mem_cons_of_mem _ h))
      · intro x hx
        rw [e]
        rcases List.mem_cons.mp hx with rfl | hxr
        · rw [ih3 x hmr, if_pos hfip]
        · exact ih4 x hxr
      · rw [e, efil, ih5]
    · have e : pickLoop (m :: rest) (tb, nfns, needed, ret)
          = pickLoop rest
            (updTable tb m (fun t => { t with flush_in_progress_ := true }),
             nfns - 1, (if nfns - 1 = 0 then false else needed), ret ++ [m]) := by
        simp [pickLoop, hfip]
      set tb₁ := updTable tb m (fun t => { t with flush_in_progress_ := true })
        with htb₁
      have htb₁x : ∀ x, x ≠ m → tb₁ x = tb x := by
        intro x hx
        simp [htb₁, updTable, hx]
      have efil : rest.filter (fun x => !(tb₁ x).flush_in_progress_)
          = rest.filter (fun x => !(tb x).flush_in_progress_) :=
        List.filter_congr (fun x hx => by
          rw [htb₁x x (fun e' => hmr (e' ▸ hx))])
      have efil2 : (m :: rest).filter (fun x => !(tb x).flush_in_progress_)
          = m :: rest.filter (fun x => !(tb x).flush_in_progress_) := by
        simp [List.filter_cons, hfip]
      obtain ⟨ih1, ih2, ih3, ih4, ih5⟩ := ih tb₁ (nfns - 1)
        (if nfns - 1 = 0 then false else needed) (ret ++ [m]) hndr
      refine ⟨?_, ?_, ?_, ?_, ?_⟩
      · rw [e, ih1, efil, efil2]
        simp
      · rw [e, ih2, efil, efil2, List.length_cons]
        push_cast
        ring
      · intro x hx
        have hxm : x ≠ m := fun e' => hx (e' ▸ List.mem_cons_self _ _)
        have hxr : x ∉ rest := fun h => hx (List.mem_cons_of_mem _ h)
        rw [e, ih3 x hxr, htb₁x x hxm]
      · intro x hx
        rcases List.mem_cons.mp hx with rfl | hxr
        · rw [e, ih3 x hmr, if_neg hfip]
          simp [htb₁, updTable]
        · have hxm : x ≠ m := fun e' => hmr (e' ▸ hxr)
          rw [e, ih4 x hxr, htb₁x x hxm]
      · rw [e, ih5, efil, efil2, List.length_cons]
        push_cast
        split_ifs <;> first | rfl | omega

/-! ### Unfolding `installMemtableFlushResults` on its three paths -/

/-- The scan state produced inside `installMemtableFlushResults` on the
success path when the single-flight guard was free. -/
def installScan (st : MemTableList) (mems : List Nat) (fn : Nat)
    (pend : Finset Nat) (oracle : List Status) : ScanSt :=
  scanLoop fn (st.memlist_.length + 2) false
    { st := { st with
        tables := markLoop fn mems st.tables
        commit_in_progress_ := true }
      pending := pend
      s := Status.ok
      applyResults := oracle
      events := [] }

lemma install_ok_eq (st : MemTableList) (mems : List Nat) (fn : Nat)
    (pend : Finset Nat) (oracle : List Status)
    (hg : st.commit_in_progress_ = false) :
    st.installMemtableFlushResults mems Status.ok fn pend oracle
      = { list := { (installScan st mems fn pend oracle).st with
            commit_in_progress_ := false }
          pending := (installScan st mems fn pend oracle).pending
          status := (installScan st mems fn pend oracle).s
          events := (installScan st mems fn pend oracle).events } := by
  simp [MemTableList.installMemtableFlushResults, installScan, hg]

lemma install_guard_eq (st : MemTableList) (mems : List Nat) (fn : Nat)
    (pend : Finset Nat) (oracle : List Status)
    (hg : st.commit_in_progress_ = true) :
    st.installMemtableFlushResults mems Status.ok fn pend oracle
      = { list := { st with tables := markLoop fn mems st.tables }
          pending := pend
          status := Status.ok
          events := [] } := by
  simp [MemTableList.installMemtableFlushResults, hg]

lemma install_fail_eq (st : MemTableList) (mems : List Nat)
    (flushStatus : Status) (fn : Nat) (pend : Finset Nat)
    (oracle : List Status) (hf : flushStatus ≠ Status.ok) :
    st.installMemtableFlushResults mems flushStatus fn pend oracle
      = { list := { st with
            tables := (failLoop fn mems
              (st.tables, st.num_flush_not_started_, st.imm_flush_needed, pend)).1
            num_flush_not_started_ := (failLoop fn mems
              (st.tables, st.num_flush_not_started_, st.imm_flush_needed, pend)).2.1
            imm_flush_needed := (failLoop fn mems
              (st.tables, st.num_flush_not_started_, st.imm_flush_needed, pend)).2.2.1 }
          pending := (failLoop fn mems
            (st.tables, st.num_flush_not_started_, st.imm_flush_needed, pend)).2.2.2
          status := flushStatus
          events := [] } := by
  simp [MemTableList.installMemtableFlushResults, hf]

/-- Consolidated specification of an `InstallMemtableFlushResults` call on the
success path with a free single-flight guard, phrased directly on the call's
result `r`.  `markLoop fn mems st.tables` is the table map right after the
marking phase. -/
structure InstallOk (st : MemTableList) (mems : List Nat) (fn : Nat)
    (pend : Finset Nat) (r : InstallResult) : Prop where
  ml : r.list.memlist_ ++ (committedIds r.events).reverse = st.memlist_
  mlnd : r.list.memlist_.Nodup
  size : r.list.size_ = st.size_ - ((committedIds r.events).length : Int)
  nfns : r.list.num_flush_not_started_
      = st.num_flush_not_started_ + ((rollbackEvents r.events).length : Int)
  guard : r.list.commit_in_progress_ = false
  pend' : r.pending ⊆ pend
  untouched : ∀ x, x ∉ committedIds r.events →
    (∀ f, Ev.rolledBack x f ∉ r.events) →
    r.list.tables x = markLoop fn mems st.tables x
  comm : ∀ m ∈ committedIds r.events,
    r.list.tables m = { markLoop fn mems st.tables m with
      refs_ := (markLoop fn mems st.tables m).refs_ - 1 }
    ∧ (markLoop fn mems st.tables m).file_number_ ∉ r.pending
  commNotMem : ∀ m ∈ committedIds r.events, m ∉ r.list.memlist_
  roll : ∀ m f, Ev.rolledBack m f ∈ r.events →
    f = (markLoop fn mems st.tables m).file_number_
    ∧ r.list.tables m = { markLoop fn mems st.tables m with
        flush_in_progress_ := false
        flush_completed_ := false
        edit_ := 0
        file_number_ := 0 }
    ∧ m ∈ r.list.memlist_
    ∧ f ∉ r.pending
    ∧ r.list.imm_flush_needed = true
  rollOnce : (rollbackEvents r.events).length ≤ 1
  sKind : r.status ≠ Status.ok → r.status = Status.ioError commitFailMessage
  sLast : r.status ≠ Status.ok →
    ∃ m f, r.events.getLast? = some (Ev.rolledBack m f)
  bulkFn : ∀ m ∈ committedIds r.events,
    (∃ s, Ev.applied m s ∈ r.events)
    ∨ (markLoop fn mems st.tables m).file_number_ = fn
  immSame : rollbackEvents r.events = [] →
    r.list.imm_flush_needed = st.imm_flush_needed
  invp : st.num_flush_not_started_
      = notStartedCount { st with tables := markLoop fn mems st.tables }
      ∧ goodTags { st with tables := markLoop fn mems st.tables } →
    r.list.num_flush_not_started_ = notStartedCount r.list
      ∧ goodTags r.list

theorem install_ok_spec (st : MemTableList) (mems : List Nat) (fn : Nat)
    (pend : Finset Nat) (oracle : List Status)
    (hg : st.commit_in_progress_ = false) (hnd : st.memlist_.Nodup)
    (hfn : fn ≠ 0) :
    InstallOk st mems fn pend
      (st.installMemtableFlushResults mems Status.ok fn pend oracle) := by
  obtain ⟨es, h⟩ := scanLoop_scanOk fn hfn (st.memlist_.length + 2) false
    ⟨{ st with tables := markLoop fn mems st.tables, commit_in_progress_ := true },
     pend, Status.ok, oracle, []⟩ hnd
  rw [install_ok_eq st mems fn pend oracle hg]
  have hev : (installScan st mems fn pend oracle).events = es := by
    rw [show (installScan st mems fn pend oracle).events
        = ([] : List Ev) ++ es from h.ev]
    exact List.nil_append es
  have hml : (installScan st mems fn pend oracle).st.memlist_
      ++ (committedIds es).reverse = st.memlist_ := h.ml
  have hmlnd : (installScan st mems fn pend oracle).st.memlist_.Nodup := by
    have h2 : ((installScan st mems fn pend oracle).st.memlist_
        ++ (committedIds es).reverse).Nodup := by
      rw [hml]
      exact hnd
    exact (List.nodup_append.mp h2).1
  refine
    { ml := ?_, mlnd := ?_, size := ?_, nfns := ?_, guard := rfl, pend' := ?_
      untouched := ?_, comm := ?_, commNotMem := ?_, roll := ?_, rollOnce := ?_
      sKind := ?_, sLast := ?_, bulkFn := ?_, immSame := ?_, invp := ?_ }
  · show (installScan st mems fn pend oracle).st.memlist_
      ++ (committedIds (installScan st mems fn pend oracle).events).reverse
      = st.memlist_
    rw [hev]
    exact hml
  · exact hmlnd
  · show (installScan st mems fn pend oracle).st.size_
      = st.size_ - ((committedIds (installScan st mems fn pend oracle).events).length : Int)
    rw [hev]
    exact h.size
  · show (installScan st mems fn pend oracle).st.num_flush_not_started_
      = st.num_flush_not_started_
        + ((rollbackEvents (installScan st mems fn pend oracle).events).length : Int)
    rw [hev]
    exact h.nfns
  · exact h.pend
  · intro x hxc hxr
    rw [hev] at hxc hxr
    exact h.untouched x hxc hxr
  · intro m hm
    rw [hev] at hm
    exact h.comm m hm
  · intro m hm hmem
    rw [hev] at hm
    have h2 : ((installScan st mems fn pend oracle).st.memlist_
        ++ (committedIds es).reverse).Nodup := by
      rw [hml]
      exact hnd
    rcases List.nodup_append.mp h2 with ⟨-, -, hdisj⟩
    exact hdisj hmem (List.mem_reverse.mpr hm)
  · intro m f hf
    rw [hev] at hf
    exact h.roll m f hf
  · show (rollbackEvents (installScan st mems fn pend oracle).events).length ≤ 1
    rw [hev]
    exact h.rollOnce
  · intro hbad
    rcases h.sKind hbad with h2 | h2
    · exact absurd h2 hbad
    · exact h2
  · intro hbad
    rw [hev]
    exact h.sLast hbad rfl
  · intro m hm
    rw [hev] at hm
    rcases h.bulkFn m hm with h2 | h2
    · refine Or.inl ?_
      show ∃ s, Ev.applied m s ∈ (installScan st mems fn pend oracle).events
      exact h2
    · exact Or.inr h2
  · intro hre
    rw [hev] at hre
    exact h.immSame hre
  · intro hI
    exact h.inv hI

lemma mem_committedIds {es : List Ev} {m : Nat} :
    m ∈ committedIds es ↔ Ev.committed m ∈ es := by
  unfold committedIds
  rw [List.mem_filterMap]
  constructor
  · rintro ⟨e, he, hfe⟩
    cases e with
    | applied _ _ => cases hfe
    | committed m' =>
      have : m' = m := by
        cases hfe
        rfl
      subst this
      exact he
    | rolledBack _ _ => cases hfe
  · intro h
    exact ⟨Ev.committed m, h, rfl⟩

/-! ### Concrete states used by the counterexample and witnesses.

`cxState` is the list after this scenario: memtables 0, 1, 2 were created in
that order (`memlist_ = [2, 1, 0]`, newest first) and all picked for flush;
the flush of the batch {1, 2} completed first with output file 10 (1 carries
the edit, 2 an empty one), and was installed: the scan stopped at the older
member 0, still unflushed, leaving 1 and 2 marked completed with file 10.
Afterwards 0 fails and is re-queued and re-picked; its own flush produces
file 11.  `rbState` is a two-member list, both members flush-completed, the
older with file 10 and the newer with file 12. -/

def cxTables : Nat → MemTable := fun m =>
  if m = 0 then ⟨true, false, 0, 1, 1⟩
  else if m = 1 then ⟨true, true, 10, 1, 1⟩
  else if m = 2 then ⟨true, true, 10, 0, 1⟩
  else {}

def cxState : MemTableList :=
  ⟨cxTables, [2, 1, 0], 3, 0, false, false⟩

def rbTables : Nat → MemTable := fun m =>
  if m = 1 then ⟨true, true, 10, 1, 2⟩
  else if m = 2 then ⟨true, true, 12, 1, 2⟩
  else {}

def rbState : MemTableList :=
  ⟨rbTables, [2, 1], 2, 0, false, false⟩

/-! ### Claim theorems for the memtable list -/

/-- Claim C1: the commit scan of `InstallMemtableFlushResults` commits
memtables strictly in creation order.  For every entry state and every call,
the removed members are exactly a suffix of `memlist_` (the oldest members),
removed oldest-first: the remaining list followed by the committed
identifiers in reverse commit order reassembles the original list.  In
particular a newer memtable is never removed while an older member is still
present (whether or not that member completed its flush): the scan examines
the oldest still-present member and stops at the first one that has not
completed flushing. -/
theorem installMemtableFlushResults_commit_order
    (st : MemTableList) (mems : List Nat) (flushStatus : Status)
    (file_number : Nat) (pending_outputs : Finset Nat)
    (applyResults : List Status)
    (hnd : st.memlist_.Nodup) (hfn : file_number ≠ 0) :
    (st.installMemtableFlushResults mems flushStatus file_number
      pending_outputs applyResults).list.memlist_
    ++ (committedIds (st.installMemtableFlushResults mems flushStatus
      file_number pending_outputs applyResults).events).reverse
    = st.memlist_ := by
  by_cases hfs : flushStatus = Status.ok
  · subst hfs
    cases hg : st.commit_in_progress_ with
    | false =>
      exact (install_ok_spec st mems file_number pending_outputs applyResults
        hg hnd hfn).ml
    | true =>
      rw [install_guard_eq st mems file_number pending_outputs applyResults hg]
      simp [committedIds]
  · rw [install_fail_eq st mems flushStatus file_number pending_outputs
      applyResults hfs]
    simp [committedIds]

/-- Witness for C1 at a concrete input: installing memtable 0 with file 11
into `cxState`. -/
theorem installMemtableFlushResults_commit_order_witness :
    cxState.memlist_.Nodup ∧ (11 : Nat) ≠ 0
    ∧ ((cxState.installMemtableFlushResults [0] Status.ok 11 {10, 11}
        [Status.ok, Status.ok, Status.ok]).list.memlist_
      ++ (committedIds (cxState.installMemtableFlushResults [0] Status.ok 11
        {10, 11} [Status.ok, Status.ok, Status.ok]).events).reverse
      = cxState.memlist_) :=
  ⟨by decide, by decide,
    installMemtableFlushResults_commit_order cxState [0] Status.ok 11 {10, 11}
      [Status.ok, Status.ok, Status.ok] (by decide) (by decide)⟩

/-- Claim C2 counterexample: in `cxState`, memtables 1 and 2 share file
number 10 (the same flush batch).  Installing memtable 0 with file number 11
runs the scan: after 1's metadata edit is applied successfully and 1 is
removed, the immediately-following member 2, which shares 1's `file_number_`,
is NOT committed in the same scan iteration: the trace shows a separate
metadata-log apply event for 2, because the inner continuation of the scan
compares against the call's `file_number` argument (11), not against the
file number of the member just committed (10). -/
theorem install_same_batch_extra_apply_cx :
    (cxState.tables 1).file_number_ = (cxState.tables 2).file_number_
    ∧ (cxState.installMemtableFlushResults [0] Status.ok 11 {10, 11}
        [Status.ok, Status.ok, Status.ok]).events
      = [Ev.applied 0 Status.ok, Ev.committed 0, Ev.applied 1 Status.ok,
         Ev.committed 1, Ev.applied 2 Status.ok, Ev.committed 2]
    ∧ (∃ s, Ev.applied 2 s ∈ (cxState.installMemtableFlushResults [0]
        Status.ok 11 {10, 11} [Status.ok, Status.ok, Status.ok]).events) :=
  ⟨by decide, by decide, ⟨Status.ok, by decide⟩⟩

/-- Claim C2 (amended): during the commit scan, a memtable that is committed
without its own metadata-log apply always carries the `file_number` passed to
the call: it is a member of the batch being installed, or already carried
that exact file number.  (Members of an earlier batch that merely share a
common file number with the memtable just committed each receive their own
metadata-log apply, as the counterexample shows.) -/
theorem install_bulk_commit_matches_call_file_number
    (st : MemTableList) (mems : List Nat) (file_number : Nat)
    (pending_outputs : Finset Nat) (applyResults : List Status)
    (hg : st.commit_in_progress_ = false) (hnd : st.memlist_.Nodup)
    (hfn : file_number ≠ 0) :
    ∀ m, Ev.committed m ∈ (st.installMemtableFlushResults mems Status.ok
        file_number pending_outputs applyResults).events →
      (∀ s, Ev.applied m s ∉ (st.installMemtableFlushResults mems Status.ok
        file_number pending_outputs applyResults).events) →
      m ∈ mems ∨ (st.tables m).file_number_ = file_number := by
  intro m hm hnoap
  have h := install_ok_spec st mems file_number pending_outputs applyResults
    hg hnd hfn
  rcases h.bulkFn m (mem_committedIds.mpr hm) with ⟨s, hs⟩ | hfn2
  · exact absurd hs (hnoap s)
  · by_cases hmem : m ∈ mems
    · exact Or.inl hmem
    · rw [markLoop_not_mem file_number mems st.tables m hmem] at hfn2
      exact Or.inr hfn2

/-- State for the amended-C2 witness: memtables 1 (older, carrying the
edit) and 2 (newer, empty edit) form one picked flush batch about to be
installed together. -/
def bkTables : Nat → MemTable := fun m =>
  if m = 1 then ⟨true, false, 0, 1, 1⟩
  else if m = 2 then ⟨true, false, 0, 0, 1⟩
  else {}

def bkState : MemTableList :=
  ⟨bkTables, [2, 1], 2, 0, false, false⟩

/-- Witness for the amended C2 at a concrete input, instantiated at member
2, which really is bulk-committed: installing the batch {1, 2} with file 20
applies 1's edit once, and the trace
`[applied 1 ok, committed 1, committed 2]` commits 2 with no apply event of
its own, so both antecedents hold and the conclusion (2 is in the installed
batch) is established non-vacuously. -/
theorem install_bulk_commit_matches_call_file_number_witness :
    bkState.commit_in_progress_ = false ∧ bkState.memlist_.Nodup
    ∧ (20 : Nat) ≠ 0
    ∧ Ev.committed 2 ∈ (bkState.installMemtableFlushResults [1, 2] Status.ok
        20 {20} [Status.ok]).events
    ∧ (∀ s, Ev.applied 2 s ∉ (bkState.installMemtableFlushResults [1, 2]
        Status.ok 20 {20} [Status.ok]).events)
    ∧ (2 ∈ [1, 2] ∨ (bkState.tables 2).file_number_ = 20) := by
  have hnoap : ∀ s, Ev.applied 2 s ∉ (bkState.installMemtableFlushResults
      [1, 2] Status.ok 20 {20} [Status.ok]).events := by
    intro s hs
    rw [show (bkState.installMemtableFlushResults [1, 2] Status.ok 20 {20}
      [Status.ok]).events
      = [Ev.applied 1 Status.ok, Ev.committed 1, Ev.committed 2] from
      by decide] at hs
    simp at hs
  exact ⟨rfl, by decide, by decide, by decide, hnoap,
    install_bulk_commit_matches_call_file_number bkState [1, 2] 20 {20}
      [Status.ok] rfl (by decide) (by decide) 2 (by decide) hnoap⟩

/-- Claim C3: on a non-ok flush status, every batch member is reset to the
queued state (`flush_in_progress_ = false`, `flush_completed_ = false`, edit
cleared, file number and reference count untouched), the not-started count
grows by exactly the batch size, the flush-needed signal is set, the given
file number is absent from pending outputs afterwards, the input failure
status is returned unchanged, and the list membership and size are unchanged
with no commit attempted (empty event trace). -/
theorem install_flush_failure_resets_batch
    (st : MemTableList) (mems : List Nat) (flushStatus : Status)
    (file_number : Nat) (pending_outputs : Finset Nat)
    (applyResults : List Status)
    (hf : flushStatus ≠ Status.ok) (hne : mems ≠ []) :
    ∀ r, r = st.installMemtableFlushResults mems flushStatus file_number
        pending_outputs applyResults →
    r.status = flushStatus
    ∧ r.list.memlist_ = st.memlist_
    ∧ r.list.size_ = st.size_
    ∧ r.list.num_flush_not_started_
        = st.num_flush_not_started_ + (mems.length : Int)
    ∧ r.list.imm_flush_needed = true
    ∧ file_number ∉ r.pending
    ∧ (∀ m ∈ mems, r.list.tables m
        = { st.tables m with
            flush_in_progress_ := false
            flush_completed_ := false
            edit_ := 0 })
    ∧ r.events = [] := by
  intro r hr
  subst hr
  rw [install_fail_eq st mems flushStatus file_number pending_outputs
    applyResults hf]
  obtain ⟨f1, f2, f3, f4, f5, f6⟩ := failLoop_spec file_number mems st.tables
    st.num_flush_not_started_ st.imm_flush_needed pending_outputs
  refine ⟨rfl, rfl, rfl, f3, ?_, (f6 hne).1, f2, rfl⟩
  show (failLoop file_number mems (st.tables, st.num_flush_not_started_,
    st.imm_flush_needed, pending_outputs)).2.2.1 = true
  rw [f4, if_neg hne]

/-- Witness for C3: a failing flush of the batch {0} against `cxState`. -/
theorem install_flush_failure_resets_batch_witness :
    (Status.other 3 : Status) ≠ Status.ok ∧ ([0] : List Nat) ≠ []
    ∧ ((cxState.installMemtableFlushResults [0] (Status.other 3) 7 {7, 9}
        []).status = Status.other 3
      ∧ (cxState.installMemtableFlushResults [0] (Status.other 3) 7 {7, 9}
        []).list.memlist_ = cxState.memlist_
      ∧ (cxState.installMemtableFlushResults [0] (Status.other 3) 7 {7, 9}
        []).list.size_ = cxState.size_
      ∧ (cxState.installMemtableFlushResults [0] (Status.other 3) 7 {7, 9}
        []).list.num_flush_not_started_
          = cxState.num_flush_not_started_ + (([0] : List Nat).length : Int)
      ∧ (cxState.installMemtableFlushResults [0] (Status.other 3) 7 {7, 9}
        []).list.imm_flush_needed = true
      ∧ (7 : Nat) ∉ (cxState.installMemtableFlushResults [0] (Status.other 3)
        7 {7, 9} []).pending
      ∧ (∀ m ∈ ([0] : List Nat),
          (cxState.installMemtableFlushResults [0] (Status.other 3) 7 {7, 9}
            []).list.tables m
          = { cxState.tables m with
              flush_in_progress_ := false
              flush_completed_ := false
              edit_ := 0 })
      ∧ (cxState.installMemtableFlushResults [0] (Status.other 3) 7 {7, 9}
        []).events = []) :=
  ⟨by decide, by decide,
    install_flush_failure_resets_batch cxState [0] (Status.other 3) 7 {7, 9}
      [] (by decide) (by decide) _ rfl⟩

/-- Claim C4: when a metadata-log apply fails during the commit scan, the
memtable whose apply failed is rolled back to the queued state
(`flush_completed_ = false`, `flush_in_progress_ = false`, edit cleared,
`file_number_ = 0`), the not-started count is incremented by one, the
flush-needed signal is set, its pending-output entry is erased at the file
number it held before the reset, the scan stops (the rollback is the last
event of the trace), the single-flight guard is released before returning,
and the returned status is the synthesized IO error, whatever non-ok status
the collaborator produced. -/
theorem install_commit_failure_rolls_back
    (st : MemTableList) (mems : List Nat) (file_number : Nat)
    (pending_outputs : Finset Nat) (applyResults : List Status)
    (hg : st.commit_in_progress_ = false) (hnd : st.memlist_.Nodup)
    (hfn : file_number ≠ 0) :
    ∀ r, r = st.installMemtableFlushResults mems Status.ok file_number
        pending_outputs applyResults →
    r.status ≠ Status.ok →
    r.status = Status.ioError commitFailMessage
    ∧ r.list.commit_in_progress_ = false
    ∧ r.list.imm_flush_needed = true
    ∧ r.list.num_flush_not_started_ = st.num_flush_not_started_ + 1
    ∧ ∃ m f, r.events.getLast? = some (Ev.rolledBack m f)
        ∧ f = (markLoop file_number mems st.tables m).file_number_
        ∧ m ∈ r.list.memlist_
        ∧ (r.list.tables m).flush_completed_ = false
        ∧ (r.list.tables m).flush_in_progress_ = false
        ∧ (r.list.tables m).edit_ = 0
        ∧ (r.list.tables m).file_number_ = 0
        ∧ f ∉ r.pending := by
  intro r hr hbad
  subst hr
  have h := install_ok_spec st mems file_number pending_outputs applyResults
    hg hnd hfn
  obtain ⟨m, f, hgl⟩ := h.sLast hbad
  have hmem : Ev.rolledBack m f
      ∈ (st.installMemtableFlushResults mems Status.ok file_number
        pending_outputs applyResults).events :=
    List.mem_of_getLast?_eq_some hgl
  obtain ⟨hf1, hf2, hf3, hf4, hf5⟩ := h.roll m f hmem
  have hrc : (rollbackEvents (st.installMemtableFlushResults mems Status.ok
      file_number pending_outputs applyResults).events).length = 1 := by
    have h1 : Ev.rolledBack m f
        ∈ rollbackEvents (st.installMemtableFlushResults mems Status.ok
          file_number pending_outputs applyResults).events :=
      List.mem_filter.mpr ⟨hmem, rfl⟩
    have h2 := h.rollOnce
    have h3 := List.length_pos_of_mem h1
    omega
  refine ⟨h.sKind hbad, h.guard, hf5, ?_, m, f, hgl, hf1, hf3, by rw [hf2],
    by rw [hf2], by rw [hf2], by rw [hf2], hf4⟩
  rw [h.nfns, hrc]
  push_cast
  ring

/-- Witness for C4: in `rbState` (members 1 then 2, both flush-completed
with files 10 and 12), an install with file 13 applies 1's edit (ok) and
then fails on 2's apply with a collaborator status; the call returns the
synthesized IO error and 2 is rolled back. -/
theorem install_commit_failure_rolls_back_witness :
    rbState.commit_in_progress_ = false ∧ rbState.memlist_.Nodup
    ∧ (13 : Nat) ≠ 0
    ∧ ((rbState.installMemtableFlushResults [] Status.ok 13 {10, 12}
        [Status.ok, Status.other 7]).status ≠ Status.ok)
    ∧ ((rbState.installMemtableFlushResults [] Status.ok 13 {10, 12}
        [Status.ok, Status.other 7]).status
          = Status.ioError commitFailMessage
      ∧ (rbState.installMemtableFlushResults [] Status.ok 13 {10, 12}
        [Status.ok, Status.other 7]).list.commit_in_progress_ = false
      ∧ (rbState.installMemtableFlushResults [] Status.ok 13 {10, 12}
        [Status.ok, Status.other 7]).list.imm_flush_needed = true
      ∧ (rbState.installMemtableFlushResults [] Status.ok 13 {10, 12}
        [Status.ok, Status.other 7]).list.num_flush_not_started_
          = rbState.num_flush_not_started_ + 1
      ∧ ∃ m f, (rbState.installMemtableFlushResults [] Status.ok 13 {10, 12}
          [Status.ok, Status.other 7]).events.getLast?
            = some (Ev.rolledBack m f)
        ∧ f = (markLoop 13 [] rbState.tables m).file_number_
        ∧ m ∈ (rbState.installMemtableFlushResults [] Status.ok 13 {10, 12}
            [Status.ok, Status.other 7]).list.memlist_
        ∧ ((rbState.installMemtableFlushResults [] Status.ok 13 {10, 12}
            [Status.ok, Status.other 7]).list.tables m).flush_completed_ = false
        ∧ ((rbState.installMemtableFlushResults [] Status.ok 13 {10, 12}
            [Status.ok, Status.other 7]).list.tables m).flush_in_progress_ = false
        ∧ ((rbState.installMemtableFlushResults [] Status.ok 13 {10, 12}
            [Status.ok, Status.other 7]).list.tables m).edit_ = 0
        ∧ ((rbState.installMemtableFlushResults [] Status.ok 13 {10, 12}
            [Status.ok, Status.other 7]).list.tables m).file_number_ = 0
        ∧ f ∉ (rbState.installMemtableFlushResults [] Status.ok 13 {10, 12}
            [Status.ok, Status.other 7]).pending) :=
  ⟨rfl, by decide, by decide, by decide,
    install_commit_failure_rolls_back rbState [] 13 {10, 12}
      [Status.ok, Status.other 7] rfl (by decide) (by decide) _ rfl
      (by decide)⟩

/-- Claim C5: if the single-flight guard is already held when the call is
made with an ok flush status, the call marks every batch member
`flush_completed_ = true` with the given file number and returns ok at once,
mutating nothing else: membership, size, not-started count, pending outputs,
every member's reference count, and every non-batch memtable are unchanged,
and no scan event is emitted. -/
theorem install_single_flight_early_return
    (st : MemTableList) (mems : List Nat) (file_number : Nat)
    (pending_outputs : Finset Nat) (applyResults : List Status)
    (hg : st.commit_in_progress_ = true) :
    ∀ r, r = st.installMemtableFlushResults mems Status.ok file_number
        pending_outputs applyResults →
    r.status = Status.ok
    ∧ r.list.memlist_ = st.memlist_
    ∧ r.list.size_ = st.size_
    ∧ r.list.num_flush_not_started_ = st.num_flush_not_started_
    ∧ r.pending = pending_outputs
    ∧ r.events = []
    ∧ (∀ m, (r.list.tables m).refs_ = (st.tables m).refs_)
    ∧ (∀ m ∈ mems, (r.list.tables m).flush_completed_ = true
        ∧ (r.list.tables m).file_number_ = file_number)
    ∧ (∀ m, m ∉ mems → r.list.tables m = st.tables m) := by
  intro r hr
  subst hr
  rw [install_guard_eq st mems file_number pending_outputs applyResults hg]
  refine ⟨rfl, rfl, rfl, rfl, rfl, rfl, ?_, ?_, ?_⟩
  · intro m
    exact (markLoop_preserves file_number mems st.tables m).2.1
  · intro m hm
    have e := markLoop_mem file_number mems st.tables m hm
    exact ⟨by rw [show ({ st with tables := markLoop file_number mems st.tables } :
        MemTableList).tables m = markLoop file_number mems st.tables m from rfl, e],
      by rw [show ({ st with tables := markLoop file_number mems st.tables } :
        MemTableList).tables m = markLoop file_number mems st.tables m from rfl, e]⟩
  · intro m hm
    exact markLoop_not_mem file_number mems st.tables m hm

/-- Witness for C5: calling into `cxState` with the guard held. -/
theorem install_single_flight_early_return_witness :
    ({ cxState with commit_in_progress_ := true } :
        MemTableList).commit_in_progress_ = true
    ∧ (∀ r, r = ({ cxState with commit_in_progress_ := true } :
          MemTableList).installMemtableFlushResults [0] Status.ok 11 {10}
          [] →
        r.status = Status.ok
        ∧ r.list.memlist_ = ({ cxState with commit_in_progress_ := true } :
            MemTableList).memlist_
        ∧ r.list.size_ = ({ cxState with commit_in_progress_ := true } :
            MemTableList).size_
        ∧ r.list.num_flush_not_started_
            = ({ cxState with commit_in_progress_ := true } :
              MemTableList).num_flush_not_started_
        ∧ r.pending = {10}
        ∧ r.events = []
        ∧ (∀ m, (r.list.tables m).refs_
            = (({ cxState with commit_in_progress_ := true } :
              MemTableList).tables m).refs_)
        ∧ (∀ m ∈ ([0] : List Nat), (r.list.tables m).flush_completed_ = true
            ∧ (r.list.tables m).file_number_ = 11)
        ∧ (∀ m, m ∉ ([0] : List Nat) → r.list.tables m
            = ({ cxState with commit_in_progress_ := true } :
              MemTableList).tables m)) :=
  ⟨rfl, install_single_flight_early_return
    { cxState with commit_in_progress_ := true } [0] 11 {10} [] rfl⟩

/-- Claim C10: `InstallMemtableFlushResults` is not atomic on commit failure.
Every memtable with a committed event in the trace is absent from the final
list with its reference count decremented and its pending-output entry
erased, whatever happened later in the same call (in particular when a later
apply failed and the call returned an error); at most one memtable (the one
whose apply failed) is rolled back, and it remains in the list; the size
drops by exactly the number of committed members. -/
theorem install_not_atomic_on_commit_failure
    (st : MemTableList) (mems : List Nat) (file_number : Nat)
    (pending_outputs : Finset Nat) (applyResults : List Status)
    (hg : st.commit_in_progress_ = false) (hnd : st.memlist_.Nodup)
    (hfn : file_number ≠ 0) :
    ∀ r, r = st.installMemtableFlushResults mems Status.ok file_number
        pending_outputs applyResults →
    (∀ m, Ev.committed m ∈ r.events →
      m ∉ r.list.memlist_
      ∧ (r.list.tables m).refs_ = (st.tables m).refs_ - 1
      ∧ (markLoop file_number mems st.tables m).file_number_ ∉ r.pending)
    ∧ (rollbackEvents r.events).length ≤ 1
    ∧ (∀ m f, Ev.rolledBack m f ∈ r.events → m ∈ r.list.memlist_)
    ∧ r.list.size_ = st.size_ - ((committedIds r.events).length : Int) := by
  intro r hr
  subst hr
  have h := install_ok_spec st mems file_number pending_outputs applyResults
    hg hnd hfn
  refine ⟨?_, h.rollOnce, ?_, h.size⟩
  · intro m hm
    have hm' := mem_committedIds.mpr hm
    refine ⟨h.commNotMem m hm', ?_, (h.comm m hm').2⟩
    rw [(h.comm m hm').1]
    show (markLoop file_number mems st.tables m).refs_ - 1
      = (st.tables m).refs_ - 1
    rw [(markLoop_preserves file_number mems st.tables m).2.1]
  · intro m f hf
    exact (h.roll m f hf).2.2.1

/-- Witness for C10 at the concrete failing input of `rbState`: member 1 is
committed, then 2's apply fails; the error return coexists with 1 staying
removed. -/
theorem install_not_atomic_on_commit_failure_witness :
    rbState.commit_in_progress_ = false ∧ rbState.memlist_.Nodup
    ∧ (13 : Nat) ≠ 0
    ∧ Ev.committed 1 ∈ (rbState.installMemtableFlushResults [] Status.ok 13
        {10, 12} [Status.ok, Status.other 7]).events
    ∧ (rbState.installMemtableFlushResults [] Status.ok 13 {10, 12}
        [Status.ok, Status.other 7]).status ≠ Status.ok
    ∧ (1 ∉ (rbState.installMemtableFlushResults [] Status.ok 13 {10, 12}
          [Status.ok, Status.other 7]).list.memlist_
      ∧ ((rbState.installMemtableFlushResults [] Status.ok 13 {10, 12}
          [Status.ok, Status.other 7]).list.tables 1).refs_
        = (rbState.tables 1).refs_ - 1
      ∧ (markLoop 13 [] rbState.tables 1).file_number_
        ∉ (rbState.installMemtableFlushResults [] Status.ok 13 {10, 12}
          [Status.ok, Status.other 7]).pending) :=
  ⟨rfl, by decide, by decide, by decide, by decide,
    (install_not_atomic_on_commit_failure rbState [] 13 {10, 12}
      [Status.ok, Status.other 7] rfl (by decide) (by decide) _ rfl).1 1
      (by decide)⟩

/-- Claim C6: `PickMemtablesToFlush` scans oldest-first and selects exactly
the members not already `flush_in_progress_`, in oldest-to-newest order
(the filter of the reversed list); each selected member is marked
`flush_in_progress_ = true` and all other memtables are untouched; the
not-started count decreases by exactly the number selected; the list
membership, size and guard are unchanged; and the flush-needed signal ends
up cleared exactly when the count passed through zero during the scan, i.e.
when `1 ≤ num_flush_not_started_ ≤ number selected`. -/
theorem pickMemtablesToFlush_spec (st : MemTableList)
    (hnd : st.memlist_.Nodup) :
    ∀ st' ret, st' = st.pickMemtablesToFlush.1 →
      ret = st.pickMemtablesToFlush.2 →
    ret = st.memlist_.reverse.filter
      (fun m => !(st.tables m).flush_in_progress_)
    ∧ st'.memlist_ = st.memlist_
    ∧ st'.size_ = st.size_
    ∧ st'.commit_in_progress_ = st.commit_in_progress_
    ∧ st'.num_flush_not_started_
        = st.num_flush_not_started_ - (ret.length : Int)
    ∧ (∀ m ∈ ret, (st'.tables m).flush_in_progress_ = true)
    ∧ (∀ m, m ∉ ret → st'.tables m = st.tables m)
    ∧ st'.imm_flush_needed
        = (if 1 ≤ st.num_flush_not_started_
              ∧ st.num_flush_not_started_ ≤ (ret.length : Int)
           then false else st.imm_flush_needed) := by
  intro st' ret h1 h2
  subst h1
  subst h2
  obtain ⟨p1, p2, p3, p4, p5⟩ := pickLoop_spec st.memlist_.reverse st.tables
    st.num_flush_not_started_ st.imm_flush_needed []
    (List.nodup_reverse.mpr hnd)
  have hret : st.pickMemtablesToFlush.2
      = st.memlist_.reverse.filter
        (fun m => !(st.tables m).flush_in_progress_) := by
    show (pickLoop st.memlist_.reverse (st.tables, st.num_flush_not_started_,
      st.imm_flush_needed, [])).2.2.2 = _
    rw [p1]
    exact List.nil_append _
  refine ⟨hret, rfl, rfl, rfl, ?_, ?_, ?_, ?_⟩
  · rw [hret]
    exact p2
  · intro m hm
    rw [hret] at hm
    obtain ⟨hml, hpred⟩ := List.mem_filter.mp hm
    have hfip : (st.tables m).flush_in_progress_ = false := by
      cases hf : (st.tables m).flush_in_progress_
      · rfl
      · rw [hf] at hpred
        simp at hpred
    show ((pickLoop st.memlist_.reverse (st.tables,
      st.num_flush_not_started_, st.imm_flush_needed, [])).1 m).flush_in_progress_
      = true
    rw [p4 m hml, if_neg (by rw [hfip]; exact Bool.false_ne_true)]
  · intro m hm
    rw [hret] at hm
    show (pickLoop st.memlist_.reverse (st.tables, st.num_flush_not_started_,
      st.imm_flush_needed, [])).1 m = st.tables m
    by_cases hml : m ∈ st.memlist_.reverse
    · cases hfip : (st.tables m).flush_in_progress_ with
      | false =>
        exact absurd (List.mem_filter.mpr ⟨hml, by simp [hfip]⟩) hm
      | true =>
        rw [p4 m hml, if_pos hfip]
    · exact p3 m hml
  · rw [hret]
    show (pickLoop st.memlist_.reverse (st.tables, st.num_flush_not_started_,
      st.imm_flush_needed, [])).2.2.1 = _
    exact p5

/-- Example state for the pick witness: members 3, 5, 4 (oldest 4), with 5
already being flushed; two picks expected (4 then 3), clearing the signal. -/
def pkTables : Nat → MemTable := fun m =>
  if m = 5 then ⟨true, false, 0, 0, 1⟩ else ⟨false, false, 0, 0, 1⟩

def pkState : MemTableList :=
  ⟨pkTables, [3, 5, 4], 3, 2, false, true⟩

/-- Witness for C6 at `pkState`. -/
theorem pickMemtablesToFlush_spec_witness :
    pkState.memlist_.Nodup
    ∧ (pkState.pickMemtablesToFlush.2
        = pkState.memlist_.reverse.filter
          (fun m => !(pkTables m).flush_in_progress_)
      ∧ pkState.pickMemtablesToFlush.1.memlist_ = pkState.memlist_
      ∧ pkState.pickMemtablesToFlush.1.size_ = pkState.size_
      ∧ pkState.pickMemtablesToFlush.1.commit_in_progress_
          = pkState.commit_in_progress_
      ∧ pkState.pickMemtablesToFlush.1.num_flush_not_started_
          = pkState.num_flush_not_started_
            - ((pkState.pickMemtablesToFlush.2).length : Int)
      ∧ (∀ m ∈ pkState.pickMemtablesToFlush.2,
          (pkState.pickMemtablesToFlush.1.tables m).flush_in_progress_ = true)
      ∧ (∀ m, m ∉ pkState.pickMemtablesToFlush.2 →
          pkState.pickMemtablesToFlush.1.tables m = pkState.tables m)
      ∧ pkState.pickMemtablesToFlush.1.imm_flush_needed
          = (if 1 ≤ pkState.num_flush_not_started_
                ∧ pkState.num_flush_not_started_
                  ≤ ((pkState.pickMemtablesToFlush.2).length : Int)
             then false else pkState.imm_flush_needed)) :=
  ⟨by decide, pickMemtablesToFlush_spec pkState (by decide) _ _ rfl rfl⟩

/-- Resetting a batch of picked members increases the not-started member
count by exactly the batch size. -/
lemma failLoop_count (fn : Nat) :
    ∀ (mems : List Nat) (tb : Nat → MemTable) (nfns : Int) (needed : Bool)
      (pend : Finset Nat) (ml : List Nat), ml.Nodup → mems.Nodup →
      (∀ m ∈ mems, m ∈ ml) →
      (∀ m ∈ mems, (tb m).flush_in_progress_ = true) →
    (ml.filter (fun x =>
      !((failLoop fn mems (tb, nfns, needed, pend)).1 x).flush_in_progress_)).length
    = (ml.filter (fun x => !(tb x).flush_in_progress_)).length + mems.length := by
  intro mems
  induction mems with
  | nil =>
    intro tb nfns needed pend ml _ _ _ _
    show (ml.filter (fun x => !(tb x).flush_in_progress_)).length = _
    simp
  | cons m rest ih =>
    intro tb nfns needed pend ml hml hndm hsub hfip
    obtain ⟨hmr, hndr⟩ := List.nodup_cons.mp hndm
    have e : failLoop fn (m :: rest) (tb, nfns, needed, pend)
        = failLoop fn rest
          (updTable tb m (fun t =>
            { t with
              flush_in_progress_ := false
              flush_completed_ := false
              edit_ := 0 }),
           nfns + 1, true, pend.erase fn) := rfl
    rw [e, ih (updTable tb m (fun t =>
        { t with
          flush_in_progress_ := false
          flush_completed_ := false
          edit_ := 0 })) (nfns + 1) true (pend.erase fn) ml hml hndr
      (fun x hx => hsub x (List.mem_cons_of_mem _ hx))
      (fun x hx => by
        have hxm : x ≠ m := fun e' => hmr (e' ▸ hx)
        rw [show updTable tb m (fun t =>
          { t with
            flush_in_progress_ := false
            flush_completed_ := false
            edit_ := 0 }) x = tb x from by simp [updTable, hxm]]
        exact hfip x (List.mem_cons_of_mem _ hx))]
    have hupd := length_filter_update hml (hsub m (List.mem_cons_self _ _))
      (p := fun x => !(tb x).flush_in_progress_)
      (q := fun x => !(updTable tb m (fun t =>
        { t with
          flush_in_progress_ := false
          flush_completed_ := false
          edit_ := 0 }) x).flush_in_progress_)
      (fun x hx => by
        dsimp only
        rw [show updTable tb m (fun t =>
          { t with
            flush_in_progress_ := false
            flush_completed_ := false
            edit_ := 0 }) x = tb x from by simp [updTable, hx]])
    dsimp only at hupd
    rw [hfip m (List.mem_cons_self _ _)] at hupd
    rw [show (updTable tb m (fun t =>
      { t with
        flush_in_progress_ := false
        flush_completed_ := false
        edit_ := 0 }) m).flush_in_progress_ = false from by simp [updTable]]
      at hupd
    simp only [Bool.not_true, Bool.not_false] at hupd
    simp at hupd
    rw [List.length_cons]
    omega

/-- Marking a batch flush-completed does not change which members count as
not-started. -/
lemma markLoop_count (fn : Nat) (mems : List Nat) (tb : Nat → MemTable)
    (ml : List Nat) :
    ml.filter (fun x => !(markLoop fn mems tb x).flush_in_progress_)
      = ml.filter (fun x => !(tb x).flush_in_progress_) :=
  List.filter_congr (fun x _ => by
    rw [(markLoop_preserves fn mems tb x).1])

/-- The inductive invariant holds in every reachable state. -/
theorem reachable_inv : ∀ st, Reachable st → Inv st := by
  intro st h
  induction h with
  | init =>
    refine ⟨rfl, rfl, List.nodup_nil, fun m hm => absurd hm (List.not_mem_nil m)⟩
  | add m mt hrec hm hfip hfc hfn ih =>
    obtain ⟨i1, i2, i3, i4⟩ := ih
    rename_i st'
    refine ⟨?_, ?_, ?_, ?_⟩
    · show st'.size_ + 1 = ((m :: st'.memlist_).length : Int)
      rw [List.length_cons, i1]
      push_cast
      ring
    · show st'.num_flush_not_started_ + 1 = notStartedCount (st'.add m mt)
      have e2 : (st'.add m mt).memlist_.filter (fun x =>
            !((st'.add m mt).tables x).flush_in_progress_)
          = m :: st'.memlist_.filter (fun x =>
            !(st'.tables x).flush_in_progress_) := by
        show (m :: st'.memlist_).filter (fun x =>
          !(if x = m then mt else st'.tables x).flush_in_progress_) = _
        rw [List.filter_cons]
        rw [if_pos (show (!(if m = m then mt
          else st'.tables m).flush_in_progress_) = true from by simp [hfip])]
        congr 1
        exact List.filter_congr (fun x hx => by
          have hxm : x ≠ m := fun e => hm (e ▸ hx)
          simp [hxm])
      unfold notStartedCount
      rw [e2, List.length_cons, i2]
      unfold notStartedCount
      push_cast
      ring
    · exact List.nodup_cons.mpr ⟨hm, i3⟩
    · intro x hx hcond
      have hcond' : (if x = m then mt else st'.tables x).flush_completed_ = true
          ∨ (if x = m then mt else st'.tables x).file_number_ ≠ 0 := hcond
      show (if x = m then mt else st'.tables x).flush_in_progress_ = true
      rcases List.mem_cons.mp hx with rfl | hxr
      · rw [if_pos rfl] at hcond' ⊢
        rcases hcond' with h | h
        · rw [hfc] at h
          cases h
        · exact absurd hfn h
      · have hxm : x ≠ m := fun e => hm (e ▸ hxr)
        rw [if_neg hxm] at hcond' ⊢
        exact i4 x hxr hcond'
  | pick hr ih =>
    obtain ⟨i1, i2, i3, i4⟩ := ih
    rename_i st'
    obtain ⟨p1, p2, p3, p4, p5⟩ := pickLoop_spec st'.memlist_.reverse st'.tables
      st'.num_flush_not_started_ st'.imm_flush_needed []
      (List.nodup_reverse.mpr i3)
    have hall : ∀ x ∈ st'.memlist_,
        ((pickLoop st'.memlist_.reverse (st'.tables,
          st'.num_flush_not_started_, st'.imm_flush_needed, [])).1 x).flush_in_progress_
        = true := by
      intro x hx
      have hx' : x ∈ st'.memlist_.reverse := List.mem_reverse.mpr hx
      rw [p4 x hx']
      cases hfip : (st'.tables x).flush_in_progress_ with
      | false => simp [hfip]
      | true => simp [hfip]
    refine ⟨i1, ?_, i3, ?_⟩
    · show (pickLoop st'.memlist_.reverse (st'.tables,
        st'.num_flush_not_started_, st'.imm_flush_needed, [])).2.1
        = notStartedCount st'.pickMemtablesToFlush.1
      rw [p2]
      have hz : notStartedCount st'.pickMemtablesToFlush.1 = 0 := by
        unfold notStartedCount
        rw [show st'.pickMemtablesToFlush.1.memlist_ = st'.memlist_ from rfl]
        rw [List.filter_eq_nil_iff.mpr (fun x hx => by
          show ¬(!((pickLoop st'.memlist_.reverse (st'.tables,
            st'.num_flush_not_started_, st'.imm_flush_needed,
            [])).1 x).flush_in_progress_) = true
          rw [hall x hx]
          simp)]
        rfl
      rw [hz, List.filter_reverse, List.length_reverse, i2]
      unfold notStartedCount
      ring
    · intro x hx _
      exact hall x hx
  | install mems flushStatus file_number pending_outputs applyResults hr hsub
      hndm hfipm hfail hfnz ih =>
    obtain ⟨i1, i2, i3, i4⟩ := ih
    rename_i st'
    by_cases hfs : flushStatus = Status.ok
    · subst hfs
      cases hg : st'.commit_in_progress_ with
      | true =>
        rw [install_guard_eq st' mems file_number pending_outputs
          applyResults hg]
        refine ⟨i1, ?_, i3, ?_⟩
        · show st'.num_flush_not_started_ = notStartedCount _
          unfold notStartedCount
          rw [show ({ st' with tables := markLoop file_number mems st'.tables } :
            MemTableList).memlist_ = st'.memlist_ from rfl]
          rw [markLoop_count file_number mems st'.tables st'.memlist_]
          exact i2
        · intro x hx hcond
          have hcond' : (markLoop file_number mems st'.tables x).flush_completed_
                = true
              ∨ (markLoop file_number mems st'.tables x).file_number_ ≠ 0 :=
            hcond
          show (markLoop file_number mems st'.tables x).flush_in_progress_ = true
          by_cases hxm : x ∈ mems
          · rw [(markLoop_preserves file_number mems st'.tables x).1]
            exact hfipm x hxm
          · rw [markLoop_not_mem file_number mems st'.tables x hxm] at hcond' ⊢
            exact i4 x hx hcond'
      | false =>
        have h := install_ok_spec st' mems file_number pending_outputs
          applyResults hg i3 hfnz
        have hmarked : st'.num_flush_not_started_
            = notStartedCount { st' with
                tables := markLoop file_number mems st'.tables }
            ∧ goodTags { st' with
                tables := markLoop file_number mems st'.tables } := by
          constructor
          · unfold notStartedCount
            rw [show ({ st' with
              tables := markLoop file_number mems st'.tables } :
              MemTableList).memlist_ = st'.memlist_ from rfl]
            rw [markLoop_count file_number mems st'.tables st'.memlist_]
            exact i2
          · intro x hx hcond
            have hcond' : (markLoop file_number mems
                  st'.tables x).flush_completed_ = true
                ∨ (markLoop file_number mems st'.tables x).file_number_ ≠ 0 :=
              hcond
            show (markLoop file_number mems st'.tables x).flush_in_progress_
              = true
            by_cases hxm : x ∈ mems
            · rw [(markLoop_preserves file_number mems st'.tables x).1]
              exact hfipm x hxm
            · rw [markLoop_not_mem file_number mems st'.tables x hxm]
                at hcond' ⊢
              exact i4 x hx hcond'
        obtain ⟨j2, j4⟩ := h.invp hmarked
        refine ⟨?_, j2, h.mlnd, j4⟩
        have hlen : (st'.installMemtableFlushResults mems Status.ok
            file_number pending_outputs applyResults).list.memlist_.length
            + (committedIds (st'.installMemtableFlushResults mems Status.ok
              file_number pending_outputs applyResults).events).length
            = st'.memlist_.length := by
          have := congrArg List.length h.ml
          rw [List.length_append, List.length_reverse] at this
          exact this
        rw [h.size, i1]
        omega
    · rw [install_fail_eq st' mems flushStatus file_number pending_outputs
        applyResults hfs]
      obtain ⟨f1, f2, f3, f4, f5, f6⟩ := failLoop_spec file_number mems
        st'.tables st'.num_flush_not_started_ st'.imm_flush_needed
        pending_outputs
      refine ⟨i1, ?_, i3, ?_⟩
      · show (failLoop file_number mems (st'.tables,
          st'.num_flush_not_started_, st'.imm_flush_needed,
          pending_outputs)).2.1 = notStartedCount _
        rw [f3]
        unfold notStartedCount
        rw [show ({ st' with
          tables := (failLoop file_number mems (st'.tables,
            st'.num_flush_not_started_, st'.imm_flush_needed,
            pending_outputs)).1
          num_flush_not_started_ := (failLoop file_number mems (st'.tables,
            st'.num_flush_not_started_, st'.imm_flush_needed,
            pending_outputs)).2.1
          imm_flush_needed := (failLoop file_number mems (st'.tables,
            st'.num_flush_not_started_, st'.imm_flush_needed,
            pending_outputs)).2.2.1 } : MemTableList).memlist_
          = st'.memlist_ from rfl]
        rw [failLoop_count file_number mems st'.tables
          st'.num_flush_not_started_ st'.imm_flush_needed pending_outputs
          st'.memlist_ i3 hndm hsub hfipm]
        rw [i2]
        unfold notStartedCount
        push_cast
        ring
      · intro x hx hcond
        have hcond' : ((failLoop file_number mems (st'.tables,
              st'.num_flush_not_started_, st'.imm_flush_needed,
              pending_outputs)).1 x).flush_completed_ = true
            ∨ ((failLoop file_number mems (st'.tables,
              st'.num_flush_not_started_, st'.imm_flush_needed,
              pending_outputs)).1 x).file_number_ ≠ 0 := hcond
        show ((failLoop file_number mems (st'.tables,
          st'.num_flush_not_started_, st'.imm_flush_needed,
          pending_outputs)).1 x).flush_in_progress_ = true
        by_cases hxm : x ∈ mems
        · rw [f2 x hxm] at hcond' ⊢
          rcases hcond' with hc | hc
          · cases hc
          · exact absurd (hfail hfs x hxm) hc
        · rw [f1 x hxm] at hcond' ⊢
          exact i4 x hx hcond'

/-- Claim C7: in every state reachable from the empty `MemTableList` by any
sequence of `Add`, `PickMemtablesToFlush` and `InstallMemtableFlushResults`
calls (including flush-failure and commit-rollback paths), the invariant
`0 ≤ num_flush_not_started_ ≤ size()` holds. -/
theorem reachable_num_flush_not_started_bounds (st : MemTableList)
    (h : Reachable st) :
    0 ≤ st.num_flush_not_started_ ∧ st.num_flush_not_started_ ≤ st.size := by
  obtain ⟨i1, i2, -, -⟩ := reachable_inv st h
  constructor
  · rw [i2]
    unfold notStartedCount
    exact Int.natCast_nonneg _
  · rw [i2, show st.size = st.size_ from rfl, i1]
    unfold notStartedCount
    exact Nat.cast_le.mpr (List.length_filter_le _ _)

/-- Witness for C7: a two-step reachable state (`Add` then a pick). -/
theorem reachable_num_flush_not_started_bounds_witness :
    Reachable (initState.add 0 {}).pickMemtablesToFlush.1
    ∧ (0 ≤ (initState.add 0 {}).pickMemtablesToFlush.1.num_flush_not_started_
      ∧ (initState.add 0 {}).pickMemtablesToFlush.1.num_flush_not_started_
        ≤ (initState.add 0 {}).pickMemtablesToFlush.1.size) :=
  ⟨Reachable.pick (Reachable.add 0 {} Reachable.init (by simp [initState])
      rfl rfl rfl),
    reachable_num_flush_not_started_bounds _
      (Reachable.pick (Reachable.add 0 {} Reachable.init (by simp [initState])
        rfl rfl rfl))⟩

end MemTableListModel

namespace MergingIteratorModel

/-! ### Model of the merging-iterator construction and direction switch
(`table/merging_iterator.cc` fragment).

The allocation arena is an external collaborator; an `Option Unit` models
the arena pointer, `none` being null.  Dereferencing the arena
(`arena->AllocateAligned(...)`) on a null pointer is the undefined branch,
modelled as `none`.  Child iterators are modelled as a strictly ordered key
sequence with a cursor; `Seek(k)` positions at the first entry `≥ k`
(the `InternalIterator` seek contract), `Next()` advances the cursor, and
`Valid()` checks the cursor is in range. -/

/-- `arena->AllocateAligned(...)`: defined only on a non-null arena. -/
def allocateAligned : Option Unit → Option Unit
  | none => none
  | some a => some a

/-- The observable construction state of a `MergingIterator`:
whether it was placement-constructed in arena storage, and how many children
it holds. -/
structure MergingIteratorRep where
  is_arena_mode : Bool
  children : Nat
deriving DecidableEq

/-- `NewMergingIterator` (source lines 50-60): heap construction when
`arena` is null, placement construction in arena storage otherwise. -/
def NewMergingIterator (n : Nat) (arena : Option Unit) : MergingIteratorRep :=
  match arena with
  | none => { is_arena_mode := false, children := n }
  | some _ => { is_arena_mode := true, children := n }

/-- The `MergeIteratorBuilder` constructor (source lines 62-68): it
unconditionally evaluates `arena->AllocateAligned(sizeof(MergingIterator))`
and placement-constructs the iterator there; with a null arena this is the
undefined branch and no builder is produced. -/
def mkMergeIteratorBuilder (arena : Option Unit) : Option MergingIteratorRep :=
  match allocateAligned arena with
  | none => none
  | some _ => some { is_arena_mode := true, children := 0 }

/-- `MergeIteratorBuilder::AddIterator` (lines 70-72). -/
def addIterator (b : Option MergingIteratorRep) : Option MergingIteratorRep :=
  b.map (fun it => { it with children := it.children + 1 })

/-- `MergeIteratorBuilder::Finish` (lines 74-78): hands the iterator over. -/
def finish (b : Option MergingIteratorRep) : Option MergingIteratorRep := b

/-- `WrapToMergingIterator(iter)` (lines 44-48): builds a
`MergeIteratorBuilder(nullptr, nullptr, false)`, adds the single iterator
and finishes. -/
def WrapToMergingIterator : Option MergingIteratorRep :=
  finish (addIterator (mkMergeIteratorBuilder none))

/-- Claim C8 (refuting theorem): `NewMergingIterator` does fall back to
default (heap) allocation when no arena is given, but the
`MergeIteratorBuilder` constructor dereferences its arena unconditionally;
`WrapToMergingIterator`, which passes a null arena, therefore reaches the
undefined null-dereference branch instead of safely wrapping the iterator. -/
theorem wrapToMergingIterator_null_arena :
    WrapToMergingIterator = none
    ∧ NewMergingIterator 1 none = { is_arena_mode := false, children := 1 }
    ∧ mkMergeIteratorBuilder none = none :=
  ⟨rfl, rfl, rfl⟩

/-- A child iterator: an ordered key sequence with a cursor position. -/
structure ChildIter where
  keys : List Nat
  pos : Nat
deriving DecidableEq

/-- `Valid()`: the cursor is on an entry. -/
def ChildIter.valid (c : ChildIter) : Bool := decide (c.pos < c.keys.length)

/-- `key()`: the entry under the cursor. -/
def ChildIter.key (c : ChildIter) : Nat := c.keys.getD c.pos 0

/-- Index of the first entry `≥ k` (the whole length when there is none). -/
def seekPos (k : Nat) : List Nat → Nat
  | [] => 0
  | x :: xs => if k ≤ x then 0 else seekPos k xs + 1

/-- `Seek(k)`: position at the first entry `≥ k`. -/
def ChildIter.seek (c : ChildIter) (k : Nat) : ChildIter :=
  ⟨c.keys, seekPos k c.keys⟩

/-- `Next()`: advance the cursor. -/
def ChildIter.next (c : ChildIter) : ChildIter := ⟨c.keys, c.pos + 1⟩

/-- The merging iterator state the direction switch manipulates: the
children, the index of `current_`, the forward min-heap and the lazily
allocated reverse max-heap (membership lists, in push order — the heap
ordering itself does not matter to these claims), and the direction flag
(`true` = forward). -/
structure MergingIteratorState where
  children_ : List ChildIter
  current_ : Nat
  minHeap_ : List Nat
  maxHeap_ : Option (List Nat)
  forwardDirection : Bool

/-- `MergingIterator::ClearHeaps` (lines 31-36): empty the min-heap and,
when allocated, the max-heap. -/
def MergingIteratorState.clearHeaps (st : MergingIteratorState) :
    MergingIteratorState :=
  { st with
    minHeap_ := []
    maxHeap_ := st.maxHeap_.map (fun _ => ([] : List Nat)) }

/-- The per-child body of `SwitchToForward` (lines 17-23): every child other
than `current_` is sought to the current key `K` and, if it lands exactly on
`K`, advanced once more. -/
def repositionChild (K : Nat) (c : ChildIter) : ChildIter :=
  let c₁ := c.seek K
  if c₁.valid = true ∧ c₁.key = K then c₁.next else c₁

/-- The loop of `SwitchToForward` (lines 17-27) over the children with their
indices, starting at index `i`: reposition each non-current child, and push
every child still valid onto the (freshly cleared) min-heap. -/
def stfLoop (cur K : Nat) : Nat → List ChildIter → List ChildIter × List Nat
  | _, [] => ([], [])
  | i, c :: rest =>
    let c' := if i = cur then c else repositionChild K c
    let r := stfLoop cur K (i + 1) rest
    (c' :: r.1, (if c'.valid then [i] else []) ++ r.2)

/-- `MergingIterator::SwitchToForward` (lines 13-29). -/
def MergingIteratorState.switchToForward (st : MergingIteratorState) :
    MergingIteratorState :=
  let K := (st.children_.getD st.current_ ⟨[], 0⟩).key
  let st₀ := st.clearHeaps
  let r := stfLoop st.current_ K 0 st.children_
  { st₀ with
    children_ := r.1
    minHeap_ := st₀.minHeap_ ++ r.2
    forwardDirection := true }

lemma seekPos_spec (k : Nat) :
    ∀ l : List Nat, seekPos k l < l.length → k ≤ l.getD (seekPos k l) 0 := by
  intro l
  induction l with
  | nil => intro h; simp [seekPos] at h
  | cons x xs ih =>
    intro h
    by_cases hx : k ≤ x
    · rw [show seekPos k (x :: xs) = 0 from by simp [seekPos, hx]]
      exact hx
    · have e : seekPos k (x :: xs) = seekPos k xs + 1 := by
        simp [seekPos, hx]
      rw [e]
      rw [e, List.length_cons] at h
      exact ih (by omega)

lemma chain_getD :
    ∀ (l : List Nat), l.Chain' (· < ·) → ∀ p, p + 1 < l.length →
    l.getD p 0 < l.getD (p + 1) 0 := by
  intro l
  induction l with
  | nil => intro _ p h; simp at h
  | cons x xs ih =>
    intro hs p h
    cases xs with
    | nil => simp at h
    | cons y ys =>
      obtain ⟨hxy, hrest⟩ := List.chain'_cons.mp hs
      cases p with
      | zero => exact hxy
      | succ p =>
        rw [List.length_cons] at h
        exact ih hrest p (by omega)

/-- After repositioning, a still-valid non-current child sits strictly past
`K`, given strictly increasing keys. -/
lemma repositionChild_key (K : Nat) (c : ChildIter)
    (hs : c.keys.Chain' (· < ·)) :
    (repositionChild K c).valid = true → K < (repositionChild K c).key := by
  unfold repositionChild
  by_cases hcase : (c.seek K).valid = true ∧ (c.seek K).key = K
  · rw [if_pos hcase]
    intro hv
    have hlen : seekPos K c.keys + 1 < c.keys.length := by
      have := of_decide_eq_true hv
      exact this
    have hlt := chain_getD c.keys hs (seekPos K c.keys) hlen
    have hkey : c.keys.getD (seekPos K c.keys) 0 = K := hcase.2
    show K < c.keys.getD (seekPos K c.keys + 1) 0
    omega
  · rw [if_neg hcase]
    intro hv
    have hlen : seekPos K c.keys < c.keys.length := of_decide_eq_true hv
    have h1 : K ≤ c.keys.getD (seekPos K c.keys) 0 := seekPos_spec K c.keys hlen
    have h2 : c.keys.getD (seekPos K c.keys) 0 ≠ K := fun e => hcase ⟨hv, e⟩
    show K < c.keys.getD (seekPos K c.keys) 0
    omega

lemma stfLoop_children (cur K : Nat) :
    ∀ (l : List ChildIter) (i j : Nat), j < l.length →
    (stfLoop cur K i l).1.getD j ⟨[], 0⟩
      = (if i + j = cur then l.getD j ⟨[], 0⟩
         else repositionChild K (l.getD j ⟨[], 0⟩)) := by
  intro l
  induction l with
  | nil => intro i j h; simp at h
  | cons c rest ih =>
    intro i j h
    cases j with
    | zero =>
      show (if i = cur then c else repositionChild K c) = _
      rw [show i + 0 = i from rfl]
      rfl
    | succ j =>
      rw [List.length_cons] at h
      have e : i + (j + 1) = (i + 1) + j := by omega
      rw [e]
      show (stfLoop cur K (i + 1) rest).1.getD j ⟨[], 0⟩ = _
      exact ih (i + 1) j (by omega)

lemma stfLoop_heap (cur K : Nat) :
    ∀ (l : List ChildIter) (i x : Nat),
    x ∈ (stfLoop cur K i l).2
      ↔ ∃ j, j < l.length ∧ x = i + j
        ∧ ((stfLoop cur K i l).1.getD j ⟨[], 0⟩).valid = true := by
  intro l
  induction l with
  | nil =>
    intro i x
    constructor
    · intro h
      simp [stfLoop] at h
    · rintro ⟨j, hj, -, -⟩
      simp at hj
  | cons c rest ih =>
    intro i x
    have e2 : (stfLoop cur K i (c :: rest)).2
        = (if (if i = cur then c else repositionChild K c).valid
            then [i] else []) ++ (stfLoop cur K (i + 1) rest).2 := rfl
    constructor
    · intro h
      rw [e2] at h
      rcases List.mem_append.mp h with h1 | h2
      · refine ⟨0, by simp, ?_, ?_⟩
        · by_cases hv : (if i = cur then c else repositionChild K c).valid
          · rw [if_pos hv] at h1
            rcases List.mem_singleton.mp h1 with rfl
            omega
          · rw [if_neg hv] at h1
            cases h1
        · by_cases hv : (if i = cur then c else repositionChild K c).valid
          · exact hv
          · rw [if_neg hv] at h1
            cases h1
      · obtain ⟨j, hj, hx, hv⟩ := (ih (i + 1) x).mp h2
        refine ⟨j + 1, by rw [List.length_cons]; omega, by omega, ?_⟩
        show ((stfLoop cur K (i + 1) rest).1.getD j ⟨[], 0⟩).valid = true
        exact hv
    · rintro ⟨j, hj, rfl, hv⟩
      rw [e2]
      cases j with
      | zero =>
        have hv0 : (if i = cur then c else repositionChild K c).valid = true := hv
        rw [if_pos hv0]
        exact List.mem_append.mpr (Or.inl (by simp))
      | succ j =>
        refine List.mem_append.mpr (Or.inr ?_)
        refine (ih (i + 1) (i + (j + 1))).mpr ⟨j, ?_, by omega, ?_⟩
        · rw [List.length_cons] at hj
          omega
        · exact hv

lemma stfLoop_heap_zero (cur K : Nat) (l : List ChildIter) (x : Nat) :
    x ∈ (stfLoop cur K 0 l).2
      ↔ x < l.length ∧ ((stfLoop cur K 0 l).1.getD x ⟨[], 0⟩).valid = true := by
  rw [stfLoop_heap cur K l 0 x]
  constructor
  · rintro ⟨j, hj, hx, hv⟩
    have hjx : j = x := by omega
    subst hjx
    exact ⟨hj, hv⟩
  · rintro ⟨hx, hv⟩
    exact ⟨x, hx, by omega, hv⟩

lemma getD_mem_of_lt {α : Type} :
    ∀ (l : List α) (i : Nat) (d : α), i < l.length → l.getD i d ∈ l := by
  intro l
  induction l with
  | nil => intro i d h; simp at h
  | cons x xs ih =>
    intro i d h
    cases i with
    | zero => exact List.mem_cons_self _ _
    | succ i =>
      rw [List.getD_cons_succ]
      rw [List.length_cons] at h
      exact List.mem_cons_of_mem _ (ih i d (by omega))

/-- Claim C9: `SwitchToForward`, starting from current key `K`, sets the
direction to forward, clears the reverse heap, rebuilds the forward min-heap
to contain exactly the children that are valid after repositioning, and —
given strictly increasing keys within each child — every non-current member
of the rebuilt heap sits strictly past `K`: the forward heap never re-yields
`K` from a child that already returned it. -/
theorem switchToForward_skips_current_key (st : MergingIteratorState)
    (_hcur : st.current_ < st.children_.length)
    (_hvalid : (st.children_.getD st.current_ ⟨[], 0⟩).valid = true)
    (hsorted : ∀ c ∈ st.children_, c.keys.Chain' (· < ·)) :
    ∀ st', st' = st.switchToForward →
    st'.forwardDirection = true
    ∧ st'.maxHeap_ = st.maxHeap_.map (fun _ => ([] : List Nat))
    ∧ (∀ i, i ∈ st'.minHeap_ ↔ (i < st.children_.length
        ∧ (st'.children_.getD i ⟨[], 0⟩).valid = true))
    ∧ (∀ i ∈ st'.minHeap_, i ≠ st.current_ →
        (st.children_.getD st.current_ ⟨[], 0⟩).key
          < (st'.children_.getD i ⟨[], 0⟩).key) := by
  intro st' hst
  subst hst
  refine ⟨rfl, rfl, ?_, ?_⟩
  · intro i
    show i ∈ (stfLoop st.current_
        (st.children_.getD st.current_ ⟨[], 0⟩).key 0 st.children_).2
      ↔ (i < st.children_.length
        ∧ ((stfLoop st.current_
            (st.children_.getD st.current_ ⟨[], 0⟩).key 0
            st.children_).1.getD i ⟨[], 0⟩).valid = true)
    exact stfLoop_heap_zero _ _ _ _
  · intro i hi hne
    have hi' : i ∈ (stfLoop st.current_
        (st.children_.getD st.current_ ⟨[], 0⟩).key 0 st.children_).2 := hi
    obtain ⟨hj, hv⟩ := (stfLoop_heap_zero _ _ _ _).mp hi'
    have hch := stfLoop_children st.current_
      (st.children_.getD st.current_ ⟨[], 0⟩).key st.children_ 0 i hj
    rw [Nat.zero_add] at hch
    show (st.children_.getD st.current_ ⟨[], 0⟩).key
      < ((stfLoop st.current_
          (st.children_.getD st.current_ ⟨[], 0⟩).key 0
          st.children_).1.getD i ⟨[], 0⟩).key
    rw [hch] at hv ⊢
    rw [if_neg hne] at hv ⊢
    exact repositionChild_key _ _
      (hsorted _ (getD_mem_of_lt st.children_ i ⟨[], 0⟩ hj)) hv

/-- Witness for C9: current child 0 at key 2; child 1 positioned at the
start of `[1, 2, 3]`; its reseek lands exactly on 2 and is advanced to 3. -/
theorem switchToForward_skips_current_key_witness :
    (0 : Nat) < 2
    ∧ ((([⟨[2], 0⟩, ⟨[1, 2, 3], 0⟩] : List ChildIter).getD 0 ⟨[], 0⟩).valid
        = true)
    ∧ (∀ c ∈ ([⟨[2], 0⟩, ⟨[1, 2, 3], 0⟩] : List ChildIter),
        c.keys.Chain' (· < ·))
    ∧ (∀ i ∈ ((⟨[⟨[2], 0⟩, ⟨[1, 2, 3], 0⟩], 0, [7], some [9], false⟩ :
          MergingIteratorState).switchToForward).minHeap_,
        i ≠ 0 →
        (([⟨[2], 0⟩, ⟨[1, 2, 3], 0⟩] : List ChildIter).getD 0 ⟨[], 0⟩).key
          < (((⟨[⟨[2], 0⟩, ⟨[1, 2, 3], 0⟩], 0, [7], some [9], false⟩ :
            MergingIteratorState).switchToForward).children_.getD i
              ⟨[], 0⟩).key) := by
  have hs : ∀ c ∈ ([⟨[2], 0⟩, ⟨[1, 2, 3], 0⟩] : List ChildIter),
      c.keys.Chain' (· < ·) := by
    intro c hc
    rcases List.mem_cons.mp hc with rfl | hc
    · exact List.chain'_singleton _
    · rcases List.mem_cons.mp hc with rfl | hc
      · rw [List.chain'_cons, List.chain'_cons]
        exact ⟨by norm_num, by norm_num, List.chain'_singleton _⟩
      · simp at hc
  exact ⟨by decide, by decide, hs,
    (switchToForward_skips_current_key
      ⟨[⟨[2], 0⟩, ⟨[1, 2, 3], 0⟩], 0, [7], some [9], false⟩
      (by decide) (by decide) hs _ rfl).2.2.2⟩

end MergingIteratorModel
